import Mathlib

/-!
# Verification of the `aiagency` actor-tree core (`src/backend/agency.py`)

This file gives a shallow embedding of the state-relevant parts of
`src/backend/agency.py`: the agent tree (`Agency`, `Agent`), agent creation
(`create_new_agent_helper` and its dynamic gate `prepare_create_new_agent_tool`),
removal (`remove_agent_helper`), the meeting coordinator (`call_meeting`), and
snapshot save/restore (`Agent.save_state`, `Agency.save_state`,
`Agent.load_state`, and the state-loading branch of `Agency.__init__`).

Modelling conventions:
* Python `dict`s are insertion-ordered association lists (`List (String × _)`);
  `aset` is `d[k] = v` (replace in place, else append), `amodify` mutates the
  value at a key, `aerase` is `del d[k]`.
* Operations that in Python raise an uncaught `KeyError` (or would diverge on a
  cyclic parent chain) return `none`.
* The external reasoning backend (`pydantic_ai` `Agent.run`) is an oracle
  `resp : Nat → String → Except String String` mapping (1-based global turn
  number, speaker id) to the response text or to a raised exception's message.
  On success, `Agent.run` appends the prompt and the response to the speaking
  agent's own history; on an exception it appends nothing.
* `print` output that the spec treats as a surfaced warning is collected in a
  returned `List String` (restore) — nothing else about `print` is modelled.
* Python `str.upper`/`str.strip` are modelled character-wise (`pyUpper`,
  `pyStrip`); filesystem/MCP-server/terminal plumbing is out of scope and not
  part of any claim.
-/

/-- One entry of an agent's `message_history`: the `ModelRequest`s the source
appends (a `SystemPromptPart` at construction, `UserPromptPart`s for inbound
text) and the `ModelResponse` text recorded after a backend call. -/
inductive HistEntry where
  | systemPrompt (content : String)
  | userPrompt (content : String)
  | response (content : String)
deriving DecidableEq, Repr

/-- The state of one `Agent` (class `Agent` in the source).  `children` holds
the keys of the Python `children` dict (its values are the agent objects owned
by the `Agency` map, so keys suffice); `parent` is the attribute assigned by
`create_new_agent_helper` (`new_agent.parent = parent_id`), which is distinct
from the `parent_id` attribute initialised by `Agent.__init__` and read by
`curr_depth`, `remove_agent_helper` and `save_state`. -/
structure Agent where
  name : String
  id : String
  provider : String
  system_prompt : String
  tool_names : List String
  accessible_tools : List (String × Bool)
  message_history : List HistEntry
  parent : Option String
  parent_id : Option String
  children : List String
  mcp_server_ids : List String
deriving DecidableEq, Repr

/-- The state of the `Agency`: the `agents` dict plus counters.  `main_agent_id`
stands for `self.main_agent.id` (the source keeps the object, we keep its id). -/
structure Agency where
  agents : List (String × Agent)
  current_id : Nat
  max_depth : Nat
  max_breadth : Nat
  max_agents : Nat
  main_agent_id : String
  workspace_id : String
  default_provider : String
deriving DecidableEq, Repr

/-! ## Python dict primitives on association lists -/

/-- `d.get(k)` / `d[k]` lookup on an insertion-ordered dict. -/
def alookup {α : Type} (l : List (String × α)) (k : String) : Option α :=
  match l with
  | [] => none
  | (k', v) :: t => if k' = k then some v else alookup t k

/-- `d[k] = v`: replace in place if the key exists, otherwise append. -/
def aset {α : Type} (l : List (String × α)) (k : String) (v : α) : List (String × α) :=
  match l with
  | [] => [(k, v)]
  | (k', v') :: t => if k' = k then (k, v) :: t else (k', v') :: aset t k v

/-- Mutate the value stored at `k` (no-op if absent; in the source the object
is always present where this is used). -/
def amodify {α : Type} (l : List (String × α)) (k : String) (f : α → α) : List (String × α) :=
  match l with
  | [] => []
  | (k', v') :: t => if k' = k then (k', f v') :: t else (k', v') :: amodify t k f

/-- `del d[k]` (the source only deletes present keys). -/
def aerase {α : Type} (l : List (String × α)) (k : String) : List (String × α) :=
  match l with
  | [] => []
  | (k', v') :: t => if k' = k then t else (k', v') :: aerase t k

/-- Keys of the dict, in insertion order. -/
def akeys {α : Type} (l : List (String × α)) : List String := l.map Prod.fst

/-- `d[k] = v` on a dict whose values are irrelevant (used for the `children`
dict, which we track by its key list): keep position if present, else append. -/
def dictInsertKey (l : List String) (k : String) : List String :=
  if k ∈ l then l else l ++ [k]

/-! ## Python string helpers -/

/-- `str.upper()` on the method-call argument (character-wise; Python and
`Char.toUpper` agree on the ASCII control tokens the source scans for). -/
def pyUpper (s : String) : String := ⟨s.data.map Char.toUpper⟩

/-- `str.strip()`: drop leading and trailing whitespace. -/
def pyStrip (s : String) : String :=
  ⟨((s.data.dropWhile Char.isWhitespace).reverse.dropWhile Char.isWhitespace).reverse⟩

/-- Substring scan used by `needle in haystack`. -/
def listInfix (needle : List Char) : List Char → Bool
  | [] => needle.isEmpty
  | c :: t => needle.isPrefixOf (c :: t) || listInfix needle t

/-- `needle in haystack` substring test. -/
def pyContains (haystack needle : String) : Bool :=
  listInfix needle.data haystack.data

/-! ## Agent construction and depth -/

/-- The tools registered in `all_tools` (names of the four enabled `Tool`s). -/
def allToolNames : List String :=
  ["create_new_agent", "message_agent", "call_meeting", "internal_monologue"]

/-- `Agent.__init__`: fresh history holding only the system-prompt entry,
`parent_id = None`, empty `children`; the `parent` attribute does not exist
yet (`none`). -/
def Agent.mkNew (name id provider system_prompt : String)
    (tool_names : List String) (accessible_tools : List (String × Bool))
    (mcp_server_ids : List String) : Agent :=
  { name := name, id := id, provider := provider, system_prompt := system_prompt,
    tool_names := tool_names, accessible_tools := accessible_tools,
    message_history := [HistEntry.systemPrompt system_prompt],
    parent := none, parent_id := none, children := [],
    mcp_server_ids := mcp_server_ids }

/-- `Agent.curr_depth` body, fuelled: `0 if self.parent_id is None else
agency.agents[self.parent_id].curr_depth() + 1`.  `none` stands for the
source diverging on a parent cycle (fuel out) or raising `KeyError` on a
missing parent id. -/
def currDepthAux (agents : List (String × Agent)) : Nat → Option String → Option Nat
  | _, none => some 0
  | 0, some _ => none
  | fuel + 1, some pid =>
    match alookup agents pid with
    | none => none
    | some p => (currDepthAux agents fuel p.parent_id).map (· + 1)

/-- `agent.curr_depth()`; one unit of fuel per parent link suffices for any
acyclic chain inside the agency. -/
def curr_depth (ag : Agency) (a : Agent) : Option Nat :=
  currDepthAux ag.agents ag.agents.length a.parent_id

/-- `agent.curr_breadth()`. -/
def curr_breadth (a : Agent) : Nat := a.children.length

/-- `Agency.next_id`: returns `str(current_id)` and increments the counter. -/
def Agency.next_id (ag : Agency) : Agency × String :=
  ({ ag with current_id := ag.current_id + 1 }, toString ag.current_id)

/-! ## createActor: `create_new_agent_helper` and its dynamic gate -/

/-- `create_new_agent_helper`: allocates the next id, builds the agent (default
`tools=all_tools`, empty `accessible_tools`, no MCP servers), registers it in
`agency.agents`, and — when the parent id is known — sets the **`parent`**
attribute on the new agent (not `parent_id`!) and inserts the new id into the
parent's `children` dict.  Returns the updated agency and the result string. -/
def create_new_agent_helper (ag : Agency) (name system_prompt parent_id : String) :
    Agency × String :=
  let (ag₁, new_id) := ag.next_id
  let new_agent := Agent.mkNew name new_id ag₁.default_provider system_prompt
      allToolNames [] []
  let ag₂ := { ag₁ with agents := aset ag₁.agents new_id new_agent }
  let ag₃ :=
    if (alookup ag₂.agents parent_id).isSome then
      let ag₃ := { ag₂ with
        agents := amodify ag₂.agents new_id (fun a => { a with parent := some parent_id }) }
      { ag₃ with
        agents := amodify ag₃.agents parent_id
          (fun p => { p with children := dictInsertKey p.children new_id }) }
    else ag₂
  (ag₃, s!"Created agent: {name} with ID: {new_id}")

/-- `prepare_create_new_agent_tool`: decides whether the `create_new_agent`
tool is offered to the calling agent's backend for this turn.  `none` mirrors
the source crashing (caller id not in the map, or `curr_depth` failing);
`some false` is the tool being withheld (`return None`), `some true` the tool
definition being returned.  Checks, in source order: the caller's
`accessible_tools` entry, then `curr_depth() >= max_depth`, then
`curr_breadth() >= max_breadth`.  No check involves `max_agents`. -/
def prepare_create_new_agent_tool (ag : Agency) (agent_id : String) : Option Bool :=
  match alookup ag.agents agent_id with
  | none => none
  | some agent =>
    match curr_depth ag agent with
    | none => none
    | some current_depth =>
      if !(agent.accessible_tools.lookup "create_new_agent" |>.getD false) then some false
      else if ag.max_depth ≤ current_depth then some false
      else if ag.max_breadth ≤ curr_breadth agent then some false
      else some true

/-! ## removeActor: `remove_agent_helper` -/

/-- `remove_agent_helper`.  Unknown ids return the "does not exist" message and
leave the agency untouched.  Otherwise: delete the id from its parent's
`children` dict (when `parent_id` is set), set `parent_id = None` on every
child, and delete the agent's record.  `none` mirrors an uncaught `KeyError`
(dangling parent or child reference). -/
def remove_agent_helper (ag : Agency) (agent_id : String) : Option (Agency × String) :=
  match alookup ag.agents agent_id with
  | none => some (ag, s!"Agent with ID {agent_id} does not exist.")
  | some agent =>
    let step1 : Option Agency :=
      match agent.parent_id with
      | none => some ag
      | some pid =>
        match alookup ag.agents pid with
        | none => none
        | some p =>
          if agent_id ∈ p.children then
            some { ag with
              agents := amodify ag.agents pid
                (fun q => { q with children := q.children.erase agent_id }) }
          else none
    match step1 with
    | none => none
    | some ag₁ =>
      match alookup ag₁.agents agent_id with
      | none => none
      | some agent₁ =>
        let step2 : Option Agency := agent₁.children.foldlM
          (fun acc cid =>
            match alookup acc.agents cid with
            | none => none
            | some _ => some { acc with
                agents := amodify acc.agents cid (fun c => { c with parent_id := none }) }) ag₁
        match step2 with
        | none => none
        | some ag₂ =>
          some ({ ag₂ with agents := aerase ag₂.agents agent_id },
                s!"Removed agent with ID: {agent_id}")

/-! ## The meeting coordinator: `call_meeting` -/

/-- One entry of the meeting `discussion_log`. -/
structure LogEntry where
  agent_name : String
  agent_id : String
  message : String
deriving DecidableEq, Repr

/-- The literal prompt of step 9. -/
def YOUR_TURN_PHRASE : String := "It is your turn to speak. Please respond."

/-- `f"Meeting initialized with objective: {meeting_objective}"`. -/
def meetingInitMessage (objective : String) : String :=
  s!"Meeting initialized with objective: {objective}"

/-- The meeting instructions appended to every child's history. -/
def childMeetingInstructions : String :=
  "Meeting Instructions:\n- Review the discussion so far\n- Share your thoughts related to the meeting objective\n- Respond to points raised by other participants\n- If you have said all you need to contribute, include \x22READY_TO_MOVE_ON\x22 in your response\n"

/-- The meeting instructions appended to the host-delegate's history. -/
def hostMeetingInstructions : String :=
  "Meeting Instructions:\n- You are the host of this meeting. You will go first. Begin by elaborating on the objective of the meeting.\n- Review the discussion so far\n- Share your thoughts related to the meeting objective\n- Respond to points raised by other participants\n- If you have said all you need to contribute and want to end the meeting, include \x22READY_TO_END_MEETING\x22 in your response\n"

/-- The `"Meeting has ended..."` entry appended to each child's history. -/
def meetingEndMessage : String := "Meeting has ended. Thank you for your participation."

/-- `"READY_TO_END_MEETING" in response.upper() or "READY_TO_MOVE_ON" in response.upper()`. -/
def containsReadyToken (response : String) : Bool :=
  pyContains (pyUpper response) "READY_TO_END_MEETING" ||
  pyContains (pyUpper response) "READY_TO_MOVE_ON"

/-- `agents_done.add(x)` (Python set insertion, modelled as an ordered
duplicate-free list). -/
def insertDone (l : List String) (x : String) : List String :=
  if x ∈ l then l else l ++ [x]

/-- Append one history entry to the agent stored at `k` (`…message_history.append(…)`). -/
def appendHist (ag : Agency) (k : String) (e : HistEntry) : Agency :=
  { ag with agents := amodify ag.agents k (fun a => { a with message_history := a.message_history ++ [e] }) }

/-- The mutable state threaded through the meeting's round loop: the agency
(all participants' objects live in `agency.agents` during the meeting — the
temporary host included), the `agents_done` ready set, the global `turn`
counter, and the `discussion_log`.  `rounds` instruments the `for _ in
range(max_rounds)` loop index (the number of round bodies entered). -/
structure MeetingLoopState where
  ag : Agency
  agents_done : List String
  turn : Nat
  log : List LogEntry
  rounds : Nat
deriving Repr

/-- One participant's turn (the body of `for agent in participants`).  The
returned `Bool` is the inner `break` fired after a successful response when
every participant is ready.  On a backend exception (`resp` returns
`.error`), only an error transcript entry is appended and the speaker joins
`agents_done` — histories are untouched. -/
def meetingTurnStep (resp : Nat → String → Except String String)
    (participants : List String) (temp_host_id host_id : String)
    (st : MeetingLoopState) (pid : String) : MeetingLoopState × Bool :=
  let t := st.turn + 1
  let logging_agent_id := if pid ≠ temp_host_id then pid else host_id
  let name := ((alookup st.ag.agents pid).map Agent.name).getD ""
  match resp t pid with
  | Except.ok data =>
    let response := pyStrip data
    let ag₁ := appendHist (appendHist st.ag pid (HistEntry.userPrompt YOUR_TURN_PHRASE))
        pid (HistEntry.response data)
    let broadcast := s!"From {name} ({logging_agent_id}): {response}"
    let ag₂ := participants.foldl
      (fun ag other =>
        if other ≠ pid then appendHist ag other (HistEntry.userPrompt broadcast) else ag) ag₁
    let log' := st.log ++ [⟨name, logging_agent_id, response⟩]
    let done' := if containsReadyToken response then insertDone st.agents_done pid
                 else st.agents_done
    ({ st with ag := ag₂, log := log', agents_done := done', turn := t },
     done'.length == participants.length)
  | Except.error e =>
    let error_msg := s!"Error during response: {e}"
    ({ st with
        log := st.log ++ [⟨name, logging_agent_id, error_msg⟩],
        agents_done := insertDone st.agents_done pid,
        turn := t },
     false)

/-- The inner `for agent in participants` loop, honouring the inner `break`. -/
def meetingRunTurns (resp : Nat → String → Except String String)
    (participants : List String) (temp_host_id host_id : String) :
    List String → MeetingLoopState → MeetingLoopState
  | [], st => st
  | pid :: rest, st =>
    let r := meetingTurnStep resp participants temp_host_id host_id st pid
    if r.2 then r.1 else meetingRunTurns resp participants temp_host_id host_id rest r.1

/-- The outer `for _ in range(max_rounds)` loop: break at the top once all
participants are ready, run a round, then break when `turn >= max_rounds`. -/
def meetingRunRounds (resp : Nat → String → Except String String)
    (participants : List String) (temp_host_id host_id : String) (max_rounds : Nat) :
    Nat → MeetingLoopState → MeetingLoopState
  | 0, st => st
  | fuel + 1, st =>
    if st.agents_done.length == participants.length then st
    else
      let stBody := meetingRunTurns resp participants temp_host_id host_id participants st
      let st' := { stBody with rounds := st.rounds + 1 }
      if max_rounds ≤ st'.turn then st'
      else meetingRunRounds resp participants temp_host_id host_id max_rounds fuel st'

/-- Everything `call_meeting` has in hand when the round loop finishes:
the loop state plus the loop-invariant data (participant order, the synthetic
host id, the saved `original_accessible_tools`, the computed round ceiling). -/
structure MeetingTrace where
  state : MeetingLoopState
  max_rounds : Nat
  participants : List String
  temp_host_id : String
  children : List String
  orig_tools : List (String × List (String × Bool))
deriving Repr

/-- Steps 2–4 of the protocol interleaved as in the source: save each child's
`accessible_tools` into `original_accessible_tools` and clear it. -/
def saveAndClearTools (ag : Agency) (children : List String) :
    Agency × List (String × List (String × Bool)) :=
  children.foldl
    (fun acc cid =>
      match alookup acc.1.agents cid with
      | none => acc
      | some c =>
        ({ acc.1 with
            agents := amodify acc.1.agents cid (fun a => { a with accessible_tools := [] }) },
         acc.2 ++ [(cid, c.accessible_tools)]))
    (ag, [])

/-- `call_meeting` up to (but not including) its teardown: clone the host under
`host_id + "_temp"`, register the clone in `agency.agents`, clear the
children's tools, seed the log and histories, compute
`max_rounds = min(max_turns * len(participants), 15)` and run the rounds.
`none` covers the source's `KeyError` on an unknown host and the
"No agents available to meet." early return (which never reaches this code). -/
def call_meeting_state (resp : Nat → String → Except String String) (ag : Agency)
    (host_id meeting_objective : String) (max_turns : Nat) (prompt : Option String) :
    Option MeetingTrace :=
  match alookup ag.agents host_id with
  | none => none
  | some host =>
    let children := host.children
    if children.isEmpty then none
    else
      let promptStr := match prompt with
        | some p => if p = "" then "Meeting called" else p
        | none => "Meeting called"
      let temp_host_id := host_id ++ "_temp"
      let temp_host : Agent :=
        { name := s!"{host.name} [Active Host]", id := temp_host_id,
          provider := host.provider, system_prompt := host.system_prompt,
          tool_names := host.tool_names, accessible_tools := [],
          message_history := host.message_history ++ [HistEntry.userPrompt promptStr],
          parent := none, parent_id := none, children := [],
          mcp_server_ids := [] }
      let ag₁ := { ag with agents := aset ag.agents temp_host_id temp_host }
      let ag₂ := (saveAndClearTools ag₁ children).1
      let orig_tools := (saveAndClearTools ag₁ children).2
      let participants := temp_host_id :: children
      let initMsg := meetingInitMessage meeting_objective
      let log₀ : List LogEntry := [⟨temp_host.name, temp_host.id, initMsg⟩]
      let ag₃ := appendHist ag₂ temp_host_id (HistEntry.userPrompt initMsg)
      let ag₄ := children.foldl (fun a cid => appendHist a cid (HistEntry.userPrompt initMsg)) ag₃
      let ag₅ := children.foldl
        (fun a cid => appendHist a cid (HistEntry.userPrompt childMeetingInstructions)) ag₄
      let ag₆ := appendHist ag₅ temp_host_id (HistEntry.userPrompt hostMeetingInstructions)
      let max_rounds := min (max_turns * participants.length) 15
      let st₀ : MeetingLoopState :=
        { ag := ag₆, agents_done := [], turn := 0, log := log₀, rounds := 0 }
      let stf := meetingRunRounds resp participants temp_host_id host_id max_rounds max_rounds st₀
      some { state := stf, max_rounds := max_rounds, participants := participants,
             temp_host_id := temp_host_id, children := children, orig_tools := orig_tools }

/-- The teardown after the round loop: build the final summary, restore each
child's saved `accessible_tools` (`original_accessible_tools.get(child.id, {})`),
append the meeting-end entry to each child's history, delete the temporary
host from `agency.agents`, and return the tool-call result string. -/
def meetingTeardown (tr : MeetingTrace) : Agency × String :=
  let final_summary := String.intercalate "\n"
    (tr.state.log.map (fun e => s!"[{e.agent_name} ({e.agent_id})]: {e.message}"))
  let agA := tr.children.foldl
    (fun a cid => { a with
      agents := amodify a.agents cid
        (fun c => { c with accessible_tools := (alookup tr.orig_tools cid).getD [] }) })
    tr.state.ag
  let agB := tr.children.foldl
    (fun a cid => appendHist a cid (HistEntry.userPrompt meetingEndMessage)) agA
  let agC :=
    if (alookup agB.agents tr.temp_host_id).isSome
    then { agB with agents := aerase agB.agents tr.temp_host_id }
    else agB
  (agC, s!"Meeting complete. Summary:\n\n{final_summary}")

/-- `call_meeting(ctx, meeting_objective, max_turns)` for a caller `host_id`:
`none` is the uncaught `KeyError` on an unknown host; a host without children
returns "No agents available to meet." untouched; otherwise the coordinator
runs and its teardown produces the final agency and summary string. -/
def call_meeting (resp : Nat → String → Except String String) (ag : Agency)
    (host_id meeting_objective : String) (max_turns : Nat) (prompt : Option String) :
    Option (Agency × String) :=
  match alookup ag.agents host_id with
  | none => none
  | some host =>
    if host.children.isEmpty then some (ag, "No agents available to meet.")
    else (call_meeting_state resp ag host_id meeting_objective max_turns prompt).map
      meetingTeardown

/-! ## Snapshot: `AgentState`, `AgencyState`, save and restore -/

/-- Pydantic model `AgentState`. -/
structure AgentState where
  id : String
  name : String
  system_prompt : String
  provider : String
  tool_names : List String
  accessible_tools : List (String × Bool)
  message_history : List HistEntry
  parent_id : Option String
  child_ids : List String
  mcp_server_ids : List String
deriving DecidableEq, Repr

/-- Pydantic model `AgencyState`. -/
structure AgencyState where
  agency_id : String
  agents : List AgentState
  current_id : Nat
  max_depth : Nat
  max_breadth : Nat
  max_agents : Nat
  workspace_id : Option String
deriving DecidableEq, Repr

/-- `Agent.save_state`. -/
def Agent.save_state (a : Agent) : AgentState :=
  { id := a.id, name := a.name, system_prompt := a.system_prompt,
    provider := a.provider, tool_names := a.tool_names,
    accessible_tools := a.accessible_tools, message_history := a.message_history,
    parent_id := a.parent_id, child_ids := a.children,
    mcp_server_ids := a.mcp_server_ids }

/-- `Agency.save_state` (`agency_id` is `self.main_agent.id`). -/
def Agency.save_state (ag : Agency) : AgencyState :=
  { agency_id := ag.main_agent_id,
    agents := ag.agents.map (fun p => p.2.save_state),
    current_id := ag.current_id, max_depth := ag.max_depth,
    max_breadth := ag.max_breadth, max_agents := ag.max_agents,
    workspace_id := some ag.workspace_id }

/-- `Agent.load_state`: runs `Agent.__init__` (so `children = {}`, no `parent`
attribute) with `tools` filtered through `all_tools_map`, then overwrites
`message_history` and `parent_id` from the saved state. -/
def Agent.load_state (st : AgentState) : Agent :=
  { name := st.name, id := st.id, provider := st.provider,
    system_prompt := st.system_prompt,
    tool_names := st.tool_names.filter (fun n => n ∈ allToolNames),
    accessible_tools := st.accessible_tools,
    message_history := st.message_history,
    parent := none, parent_id := st.parent_id, children := [],
    mcp_server_ids := st.mcp_server_ids }

/-- The warning printed by pass 2 of the state-loading `Agency.__init__` when a
saved `child_ids` entry references no loaded agent. -/
def childWarning (parent_id child_id : String) : String :=
  s!"Warning: Child agent ID {child_id} not found for parent {parent_id}"

/-- Pass 2 for one saved record: re-assert `parent_id` (note: with **no**
existence check on the referenced parent) and link each `child_ids` entry that
resolves in the loaded map, collecting a warning for each one that does not. -/
def linkOne (acc : List (String × Agent) × List String) (ast : AgentState) :
    List (String × Agent) × List String :=
  let m₁ := amodify acc.1 ast.id (fun a => { a with parent_id := ast.parent_id })
  ast.child_ids.foldl
    (fun acc₂ cid =>
      if (alookup acc₂.1 cid).isSome then
        (amodify acc₂.1 ast.id (fun a => { a with children := dictInsertKey a.children cid }),
         acc₂.2)
      else (acc₂.1, acc₂.2 ++ [childWarning ast.id cid]))
    (m₁, acc.2)

/-- Pass 2 of the state-loading `Agency.__init__` over all saved records. -/
def linkChildren (m : List (String × Agent)) (sts : List AgentState) :
    List (String × Agent) × List String :=
  sts.foldl linkOne (m, [])

/-- The state-loading branch of `Agency.__init__` (filesystem/MCP plumbing out
of scope): pass 1 loads every record into the `agents` dict, the main agent is
required to be among them (`ValueError` → `none`), pass 2 rebuilds the
parent/child links; the collected pass-2 warnings are returned alongside.
A `workspace_id` saved as `None` keeps the caller-provided/generated one
(modelled as `""`). -/
def Agency.initFromState (st : AgencyState) : Option (Agency × List String) :=
  let pass1 := st.agents.foldl (fun m ast => aset m ast.id (Agent.load_state ast)) []
  match alookup pass1 st.agency_id with
  | none => none
  | some mainAg =>
    let linked := linkChildren pass1 st.agents
    some ({ agents := linked.1,
            current_id := st.current_id,
            max_depth := st.max_depth,
            max_breadth := st.max_breadth,
            max_agents := st.max_agents,
            main_agent_id := st.agency_id,
            workspace_id := st.workspace_id.getD "",
            default_provider := mainAg.provider },
          linked.2)

/-! ## Concrete fixtures used by witnesses and counterexamples -/

/-- A concrete agent value (provider/prompts fixed, fields as given). -/
def mkFixtureAgent (id name : String) (children : List String)
    (parent_id : Option String) (acc : List (String × Bool)) : Agent :=
  { name := name, id := id, provider := "test:model", system_prompt := "sp",
    tool_names := allToolNames, accessible_tools := acc,
    message_history := [HistEntry.systemPrompt "sp"],
    parent := none, parent_id := parent_id, children := children,
    mcp_server_ids := [] }

/-- Root `"0"` with children `"1"`, `"2"` — the shape reached by creating two
children of the fresh main agent (so the children's `parent_id` is `None`,
as `create_new_agent_helper` leaves it). -/
def hostAgency : Agency :=
  { agents :=
      [("0", mkFixtureAgent "0" "main_agent" ["1", "2"] none
          [("create_new_agent", true), ("message_agent", true), ("call_meeting", true)]),
       ("1", mkFixtureAgent "1" "alice" [] none [("message_agent", true)]),
       ("2", mkFixtureAgent "2" "bob" [] none [("message_agent", true)])],
    current_id := 3, max_depth := 3, max_breadth := 3, max_agents := 10,
    main_agent_id := "0", workspace_id := "w", default_provider := "test:model" }

/-- A chain `"0" → "1" → "2"` with `parent_id` links set (the shape produced by
restoring a saved state, where `load_state` does assign `parent_id`). -/
def chainAgency : Agency :=
  { agents :=
      [("0", mkFixtureAgent "0" "main_agent" ["1"] none [("create_new_agent", true)]),
       ("1", mkFixtureAgent "1" "mid" ["2"] (some "0") []),
       ("2", mkFixtureAgent "2" "leaf" [] (some "1") [])],
    current_id := 3, max_depth := 3, max_breadth := 3, max_agents := 10,
    main_agent_id := "0", workspace_id := "w", default_provider := "test:model" }

/-- The scripted backend of the §8 meeting scenario: the host-delegate opens
(no control token), both children signal `READY_TO_MOVE_ON` in round 1, and the
host-delegate signals `READY_TO_END_MEETING` on its second turn. -/
def scenarioResp : Nat → String → Except String String := fun t _ =>
  match t with
  | 1 => Except.ok "Let us begin: please share your views."
  | 2 => Except.ok "Tariffs raise prices. READY_TO_MOVE_ON"
  | 3 => Except.ok "Agreed on the risks. READY_TO_MOVE_ON"
  | _ => Except.ok "Thank you all. READY_TO_END_MEETING"

/-- A backend that always raises, with the participant id in the message. -/
def failingResp : Nat → String → Except String String := fun _ pid =>
  Except.error s!"boom from {pid}"

/-- `hostAgency` at the `max_agents` capacity limit. -/
def atCapAgency : Agency := { hostAgency with max_agents := 3 }

/-- A saved state whose agent `"1"` carries a `parent_id` referencing a missing
actor id. -/
def corruptState : AgencyState :=
  { agency_id := "0",
    agents :=
      [{ id := "0", name := "main_agent", system_prompt := "sp",
         provider := "test:model", tool_names := [], accessible_tools := [],
         message_history := [], parent_id := none, child_ids := [],
         mcp_server_ids := [] },
       { id := "1", name := "orphan", system_prompt := "sp",
         provider := "test:model", tool_names := [], accessible_tools := [],
         message_history := [], parent_id := some "missing", child_ids := [],
         mcp_server_ids := [] }],
    current_id := 2, max_depth := 3, max_breadth := 3, max_agents := 10,
    workspace_id := some "w" }

/-! ## Observations for frame reasoning -/

/-- All fields of an agent except its `message_history` and
`accessible_tools` — the only two fields `call_meeting` ever mutates on
existing agents.  Used to state that the meeting is a frame for everything
else. -/
def coreObs (a : Agent) :
    String × String × String × String × List String × Option String ×
      Option String × List String × List String :=
  (a.name, a.id, a.provider, a.system_prompt, a.tool_names,
   a.parent, a.parent_id, a.children, a.mcp_server_ids)

/-- The agency map observed through `coreObs`. -/
def coreMap (l : List (String × Agent)) :
    List (String × (String × String × String × String × List String × Option String ×
      Option String × List String × List String)) :=
  l.map (fun p => (p.1, coreObs p.2))

/-- Structural well-formedness of the agent tree: duplicate-free keys, every
`children` entry resolves (and is not the agent itself), and every `parent_id`
points to a distinct existing agent that lists the child in its `children`
dict. -/
def WFAgency (ag : Agency) : Prop :=
  (akeys ag.agents).Nodup
  ∧ ∀ p ∈ ag.agents,
      (p.2.children.Nodup ∧ ∀ c ∈ p.2.children, c ≠ p.1 ∧ c ∈ akeys ag.agents)
      ∧ ∀ pid ∈ p.2.parent_id.toList,
          pid ≠ p.1 ∧ ∃ q ∈ ag.agents, q.1 = pid ∧ p.1 ∈ q.2.children

/-- The pure effect of pass 2's child-linking inner loop on one agent's
`children` list: each saved child id that resolves against the loaded key set
is dict-inserted, the rest are skipped. -/
def resolveChildren (keys : List String) (ch : List String) (cids : List String) : List String :=
  cids.foldl (fun ch cid => if cid ∈ keys then dictInsertKey ch cid else ch) ch

/-- A saved state whose root lists a `child_ids` entry (`"ghost"`) that no
loaded agent carries. -/
def corruptChildState : AgencyState :=
  { agency_id := "0",
    agents :=
      [{ id := "0", name := "main_agent", system_prompt := "sp",
         provider := "test:model", tool_names := [], accessible_tools := [],
         message_history := [], parent_id := none, child_ids := ["1", "ghost"],
         mcp_server_ids := [] },
       { id := "1", name := "kid", system_prompt := "sp",
         provider := "test:model", tool_names := [], accessible_tools := [],
         message_history := [], parent_id := some "0", child_ids := [],
         mcp_server_ids := [] }],
    current_id := 2, max_depth := 3, max_breadth := 3, max_agents := 10,
    workspace_id := some "w" }

/-! ## Basic lemmas about the dict primitives -/

theorem alookup_aset_self {α : Type} (l : List (String × α)) (k : String) (v : α) :
    alookup (aset l k v) k = some v := by
  induction l with
  | nil => simp [aset, alookup]
  | cons p t ih =>
    obtain ⟨k', v'⟩ := p
    by_cases h : k' = k <;> simp [aset, alookup, h, ih]

theorem alookup_aset_ne {α : Type} (l : List (String × α)) (k k' : String) (v : α)
    (h : k ≠ k') : alookup (aset l k v) k' = alookup l k' := by
  induction l with
  | nil => simp [aset, alookup, h]
  | cons p t ih =>
    obtain ⟨k₀, v₀⟩ := p
    by_cases h₀ : k₀ = k
    · subst h₀; simp [aset, alookup, h]
    · simp [aset, alookup, h₀, ih]

theorem alookup_amodify_self {α : Type} (l : List (String × α)) (k : String) (f : α → α) :
    alookup (amodify l k f) k = (alookup l k).map f := by
  induction l with
  | nil => simp [amodify, alookup]
  | cons p t ih =>
    obtain ⟨k', v'⟩ := p
    by_cases h : k' = k <;> simp [amodify, alookup, h, ih]

theorem alookup_amodify_ne {α : Type} (l : List (String × α)) (k k' : String) (f : α → α)
    (h : k ≠ k') : alookup (amodify l k f) k' = alookup l k' := by
  induction l with
  | nil => simp [amodify, alookup]
  | cons p t ih =>
    obtain ⟨k₀, v₀⟩ := p
    by_cases h₀ : k₀ = k
    · subst h₀; simp [amodify, alookup, h]
    · simp [amodify, alookup, h₀, ih]

theorem akeys_amodify {α : Type} (l : List (String × α)) (k : String) (f : α → α) :
    akeys (amodify l k f) = akeys l := by
  induction l with
  | nil => rfl
  | cons p t ih =>
    obtain ⟨k₀, v₀⟩ := p
    by_cases h₀ : k₀ = k
    · simp [amodify, akeys, h₀]
    · simp only [amodify, akeys, List.map_cons, if_neg h₀]
      simpa [akeys] using ih

theorem alookup_eq_none_iff {α : Type} (l : List (String × α)) (k : String) :
    alookup l k = none ↔ k ∉ akeys l := by
  induction l with
  | nil => simp [alookup, akeys]
  | cons p t ih =>
    obtain ⟨k₀, v₀⟩ := p
    by_cases h₀ : k₀ = k
    · subst h₀; simp [alookup, akeys]
    · have hne : k ≠ k₀ := fun h => h₀ h.symm
      simp [alookup, akeys, h₀, ih, hne]

theorem alookup_isSome_iff {α : Type} (l : List (String × α)) (k : String) :
    (alookup l k).isSome ↔ k ∈ akeys l := by
  rcases h : alookup l k with _ | v
  · simp only [Option.isSome_none, Bool.false_eq_true, false_iff]
    exact (alookup_eq_none_iff l k).mp h
  · simp only [Option.isSome_some, true_iff]
    by_contra hk
    have hnone := (alookup_eq_none_iff l k).mpr hk
    rw [h] at hnone
    exact Option.noConfusion hnone

theorem length_amodify {α : Type} (l : List (String × α)) (k : String) (f : α → α) :
    (amodify l k f).length = l.length := by
  induction l with
  | nil => rfl
  | cons p t ih =>
    obtain ⟨k₀, v₀⟩ := p
    by_cases h₀ : k₀ = k <;> simp [amodify, h₀, ih]

theorem length_aerase_of_mem {α : Type} (l : List (String × α)) (k : String)
    (h : k ∈ akeys l) : (aerase l k).length + 1 = l.length := by
  induction l with
  | nil => simp [akeys] at h
  | cons p t ih =>
    obtain ⟨k₀, v₀⟩ := p
    by_cases h₀ : k₀ = k
    · simp [aerase, h₀]
    · have : k ∈ akeys t := by
        rcases (by simpa [akeys] using h) with h' | h'
        · exact (h₀ h'.symm).elim
        · simpa [akeys] using h'
      simp [aerase, h₀, ih this]

theorem alookup_aerase_ne {α : Type} (l : List (String × α)) (k k' : String)
    (h : k ≠ k') : alookup (aerase l k) k' = alookup l k' := by
  induction l with
  | nil => rfl
  | cons p t ih =>
    obtain ⟨k₀, v₀⟩ := p
    by_cases h₀ : k₀ = k
    · subst h₀; simp [aerase, alookup, h]
    · simp [aerase, alookup, h₀, ih]

theorem alookup_aerase_self_of_nodup {α : Type} (l : List (String × α)) (k : String)
    (h : (akeys l).Nodup) : alookup (aerase l k) k = none := by
  induction l with
  | nil => rfl
  | cons p t ih =>
    obtain ⟨k₀, v₀⟩ := p
    simp only [akeys, List.map_cons, List.nodup_cons] at h
    by_cases h₀ : k₀ = k
    · subst h₀
      simp only [aerase, if_pos rfl]
      rw [alookup_eq_none_iff]
      simpa [akeys] using h.1
    · simp [aerase, alookup, h₀, ih h.2]

/-! ## C1 — tree depth after creation -/

/-- **C1** (code bug evidence).  In `hostAgency` the root `"0"` has computed
depth 0; `create_new_agent_helper` links the new agent `"3"` as a child of the
root (`children` of `"0"` becomes `["1","2","3"]`) and records the parent on
the new agent's `parent` attribute — but its `parent_id` stays `None`, so its
computed depth `curr_depth` is `0`, not `depth(parent) + 1 = 1`.  The claim's
`depth(actor) = depth(parent) + 1` fails for every agent created through
`create_new_agent_helper`. -/
theorem createActor_child_depth_is_zero :
    (alookup hostAgency.agents "0").map (curr_depth hostAgency) = some (some 0)
    ∧ (alookup (create_new_agent_helper hostAgency "carol" "be helpful" "0").1.agents "0").map
        Agent.children = some ["1", "2", "3"]
    ∧ (alookup (create_new_agent_helper hostAgency "carol" "be helpful" "0").1.agents "3").map
        (fun a => (a.parent, a.parent_id,
          curr_depth (create_new_agent_helper hostAgency "carol" "be helpful" "0").1 a))
      = some (some "0", none, some 0) := by decide

/-! ## C2 — capacity gating on creation -/

/-- **C2** (counterexample).  `atCapAgency` already holds
`max_agents = 3` actors, yet `prepare_create_new_agent_tool` still offers the
`create_new_agent` tool to the root, and running the creation helper grows the
actor map to 4 — the total-actor-count cap is never checked, contradicting the
claim that creation at `maxAgents` is refused with the tree unchanged. -/
theorem createActor_ignores_maxAgents :
    atCapAgency.max_agents ≤ atCapAgency.agents.length
    ∧ prepare_create_new_agent_tool atCapAgency "0" = some true
    ∧ (create_new_agent_helper atCapAgency "carol" "be helpful" "0").1.agents.length
        = atCapAgency.agents.length + 1 := by decide

/-! ## C3 — meeting round budget and termination scenario -/

/-- **C3** (confirmed).  Host `"0"` with children `"1"`, `"2"` and
`requestedMaxTurns = 2`: the coordinator computes
`max_rounds = min(2 × 3, 15) = 6`; with both children signalling
`READY_TO_MOVE_ON` in round 1 and the host-delegate signalling
`READY_TO_END_MEETING` on its second turn, the meeting ends after exactly
4 turns in speaker order `0, 1, 2, 0` (after the initialization entry,
which is logged under the delegate's synthetic id), the ready set reaches
size 3 on the host's second turn, and only 2 round bodies run — no round 3
occurs. -/
theorem meeting_scenario_budget_and_termination :
    (call_meeting_state scenarioResp hostAgency "0" "obj" 2 none).map
      (fun tr => (tr.max_rounds, tr.state.turn, tr.state.rounds,
                  tr.state.log.map LogEntry.agent_id, tr.state.agents_done.length))
      = some (6, 4, 2, ["0_temp", "0", "1", "2", "0"], 3) := by decide

/-! ## C4 — the host-delegate and the actor map -/

/-- **C4** (counterexample).  While the meeting runs (here: at the end of the
round loop, before teardown), the synthetic id `"0_temp"` **is** present in
`agency.agents` — `call_meeting` registers the temporary host in the actor
map, so the claim that the synthetic id is never reachable during a meeting is
false. -/
theorem temp_host_registered_during_meeting :
    (call_meeting_state scenarioResp hostAgency "0" "obj" 2 none).map
      (fun tr => (alookup tr.state.ag.agents tr.temp_host_id).isSome)
      = some true := by decide

/-! ## C9 — degraded restore on corruption -/

/-- **C9** (counterexample).  Restoring `corruptState` — whose agent `"1"` has
`parent_id = "missing"`, an id absent from the snapshot — completes, but the
dangling parent edge is copied verbatim (`parent_id` stays `"missing"`, not
unset) and the warning list is empty: no `Corrupt` warning is surfaced for a
dangling `parentId` reference. -/
theorem restore_keeps_dangling_parent :
    (Agency.initFromState corruptState).map
      (fun r => ((alookup r.1.agents "1").map Agent.parent_id, r.2))
      = some (some (some "missing"), []) := by decide

/-! ## Further dict lemmas -/

theorem alookup_append_of_some {α : Type} (l m : List (String × α)) (k : String) (v : α)
    (h : alookup l k = some v) : alookup (l ++ m) k = some v := by
  induction l with
  | nil => simp [alookup] at h
  | cons p t ih =>
    obtain ⟨k₀, v₀⟩ := p
    by_cases h₀ : k₀ = k
    · simp_all [alookup]
    · simp only [alookup, if_neg h₀] at h
      simpa [alookup, h₀] using ih h

theorem alookup_append_of_none {α : Type} (l m : List (String × α)) (k : String)
    (h : alookup l k = none) : alookup (l ++ m) k = alookup m k := by
  induction l with
  | nil => simp
  | cons p t ih =>
    obtain ⟨k₀, v₀⟩ := p
    by_cases h₀ : k₀ = k
    · simp [alookup, h₀] at h
    · simp only [alookup, if_neg h₀] at h
      simpa [alookup, h₀] using ih h

theorem aset_of_not_mem {α : Type} (l : List (String × α)) (k : String) (v : α)
    (h : k ∉ akeys l) : aset l k v = l ++ [(k, v)] := by
  induction l with
  | nil => rfl
  | cons p t ih =>
    obtain ⟨k₀, v₀⟩ := p
    simp only [akeys, List.map_cons, List.mem_cons, not_or] at h
    have h₀ : k₀ ≠ k := fun he => h.1 he.symm
    simp only [aset, if_neg h₀, List.cons_append, List.cons.injEq, true_and]
    exact ih (by simpa [akeys] using h.2)

theorem aerase_append_of_not_mem {α : Type} (l m : List (String × α)) (k : String)
    (h : k ∉ akeys l) : aerase (l ++ m) k = l ++ aerase m k := by
  induction l with
  | nil => rfl
  | cons p t ih =>
    obtain ⟨k₀, v₀⟩ := p
    simp only [akeys, List.map_cons, List.mem_cons, not_or] at h
    have h₀ : k₀ ≠ k := fun he => h.1 he.symm
    simp only [List.cons_append, aerase, if_neg h₀, List.cons.injEq, true_and]
    exact ih (by simpa [akeys] using h.2)

theorem aerase_single {α : Type} (k : String) (v : α) : aerase [(k, v)] k = [] := by
  simp [aerase]

theorem mem_of_mem_aerase {α : Type} (l : List (String × α)) (k : String) (p : String × α)
    (h : p ∈ aerase l k) : p ∈ l := by
  induction l with
  | nil => simp [aerase] at h
  | cons q t ih =>
    obtain ⟨k₀, v₀⟩ := q
    by_cases h₀ : k₀ = k
    · simp only [aerase, if_pos h₀] at h
      exact List.mem_cons_of_mem _ h
    · simp only [aerase, if_neg h₀, List.mem_cons] at h
      rcases h with h | h
      · exact h ▸ List.mem_cons_self _ _
      · exact List.mem_cons_of_mem _ (ih h)

theorem mem_of_alookup_eq_some {α : Type} (l : List (String × α)) (k : String) (v : α)
    (h : alookup l k = some v) : (k, v) ∈ l := by
  induction l with
  | nil => simp [alookup] at h
  | cons p t ih =>
    obtain ⟨k₀, v₀⟩ := p
    by_cases h₀ : k₀ = k
    · subst h₀
      simp [alookup] at h
      subst h
      exact List.mem_cons_self _ _
    · simp only [alookup, if_neg h₀] at h
      exact List.mem_cons_of_mem _ (ih h)

theorem alookup_eq_some_of_mem_nodup {α : Type} (l : List (String × α)) (k : String) (v : α)
    (hnd : (akeys l).Nodup) (h : (k, v) ∈ l) : alookup l k = some v := by
  induction l with
  | nil => simp at h
  | cons p t ih =>
    obtain ⟨k₀, v₀⟩ := p
    simp only [akeys, List.map_cons, List.nodup_cons] at hnd
    rcases List.mem_cons.mp h with h | h
    · cases h
      simp [alookup]
    · have h₀ : k₀ ≠ k := by
        intro he
        subst he
        exact hnd.1 (by simpa [akeys] using List.mem_map_of_mem Prod.fst h)
      simp only [alookup, if_neg h₀]
      exact ih hnd.2 h

theorem mem_dictInsertKey (l : List String) (k x : String) :
    x ∈ dictInsertKey l k ↔ x ∈ l ∨ x = k := by
  by_cases h : k ∈ l
  · simp only [dictInsertKey, if_pos h]
    constructor
    · exact Or.inl
    · rintro (hx | rfl)
      · exact hx
      · exact h
  · simp [dictInsertKey, if_neg h]

theorem self_ne_append_temp (s : String) : s ≠ s ++ "_temp" := by
  intro h
  have hl := congrArg String.length h
  rw [String.length_append] at hl
  have h5 : "_temp".length = 5 := rfl
  rw [h5] at hl
  omega

/-! ## coreMap preservation through the meeting -/

theorem coreMap_amodify (l : List (String × Agent)) (k : String) (f : Agent → Agent)
    (hf : ∀ a, coreObs (f a) = coreObs a) : coreMap (amodify l k f) = coreMap l := by
  induction l with
  | nil => rfl
  | cons p t ih =>
    obtain ⟨k₀, v₀⟩ := p
    by_cases h₀ : k₀ = k
    · simp [amodify, coreMap, h₀, hf]
    · simp only [amodify, if_neg h₀, coreMap, List.map_cons]
      simpa [coreMap] using ih

theorem akeys_eq_of_coreMap_eq (l l' : List (String × Agent))
    (h : coreMap l = coreMap l') : akeys l = akeys l' := by
  have h₁ : akeys l = (coreMap l).map Prod.fst := by
    simp [akeys, coreMap, List.map_map, Function.comp]
  have h₂ : akeys l' = (coreMap l').map Prod.fst := by
    simp [akeys, coreMap, List.map_map, Function.comp]
  rw [h₁, h₂, h]

theorem coreMap_appendHist (ag : Agency) (k : String) (e : HistEntry) :
    coreMap (appendHist ag k e).agents = coreMap ag.agents :=
  coreMap_amodify _ _ _ (fun _ => rfl)

theorem coreMap_foldl {β : Type} (f : Agency → β → Agency)
    (hf : ∀ ag b, coreMap (f ag b).agents = coreMap ag.agents) :
    ∀ (l : List β) (ag : Agency), coreMap ((l.foldl f ag)).agents = coreMap ag.agents := by
  intro l
  induction l with
  | nil => intro ag; rfl
  | cons b rest ih => intro ag; rw [List.foldl_cons, ih, hf]

theorem coreMap_saveAndClearTools (ag : Agency) (children : List String) :
    coreMap (saveAndClearTools ag children).1.agents = coreMap ag.agents := by
  suffices h : ∀ (cs : List String) (acc : Agency × List (String × List (String × Bool))),
      coreMap ((cs.foldl (fun acc cid =>
        match alookup acc.1.agents cid with
        | none => acc
        | some c =>
          ({ acc.1 with
              agents := amodify acc.1.agents cid (fun a => { a with accessible_tools := [] }) },
           acc.2 ++ [(cid, c.accessible_tools)])) acc)).1.agents = coreMap acc.1.agents by
    exact h children (ag, [])
  intro cs
  induction cs with
  | nil => intro acc; rfl
  | cons c rest ih =>
    intro acc
    rw [List.foldl_cons]
    rcases hc : alookup acc.1.agents c with _ | v
    · simp only [hc]
      exact ih acc
    · simp only [hc]
      rw [ih]
      exact coreMap_amodify _ _ _ (fun _ => rfl)

theorem coreMap_meetingTurnStep (resp : Nat → String → Except String String)
    (participants : List String) (temp_host_id host_id : String)
    (st : MeetingLoopState) (pid : String) :
    coreMap ((meetingTurnStep resp participants temp_host_id host_id st pid)).1.ag.agents
      = coreMap st.ag.agents := by
  rcases hr : resp (st.turn + 1) pid with e | data
  · simp [meetingTurnStep, hr]
  · simp only [meetingTurnStep, hr]
    rw [coreMap_foldl]
    · rw [coreMap_appendHist, coreMap_appendHist]
    · intro ag b
      by_cases hb : b ≠ pid
      · simp only [if_pos hb]
        exact coreMap_appendHist ag b _
      · simp only [if_neg hb]

theorem coreMap_meetingRunTurns (resp : Nat → String → Except String String)
    (participants : List String) (temp_host_id host_id : String) :
    ∀ (ps : List String) (st : MeetingLoopState),
      coreMap ((meetingRunTurns resp participants temp_host_id host_id ps st)).ag.agents
        = coreMap st.ag.agents := by
  intro ps
  induction ps with
  | nil => intro st; rfl
  | cons pid rest ih =>
    intro st
    simp only [meetingRunTurns]
    by_cases hb : (meetingTurnStep resp participants temp_host_id host_id st pid).2
    · simp only [if_pos hb]
      exact coreMap_meetingTurnStep ..
    · simp only [if_neg hb]
      rw [ih]
      exact coreMap_meetingTurnStep ..

theorem coreMap_meetingRunRounds (resp : Nat → String → Except String String)
    (participants : List String) (temp_host_id host_id : String) (max_rounds : Nat) :
    ∀ (fuel : Nat) (st : MeetingLoopState),
      coreMap ((meetingRunRounds resp participants temp_host_id host_id max_rounds fuel st)).ag.agents
        = coreMap st.ag.agents := by
  intro fuel
  induction fuel with
  | zero => intro st; rfl
  | succ n ih =>
    intro st
    simp only [meetingRunRounds]
    by_cases hd : st.agents_done.length == participants.length
    · simp [hd]
    · simp only [hd, Bool.false_eq_true, if_false]
      by_cases ht : max_rounds ≤ (meetingRunTurns resp participants temp_host_id host_id participants st).turn
      · simp only [if_pos ht]
        exact coreMap_meetingRunTurns ..
      · simp only [if_neg ht]
        rw [ih]
        exact coreMap_meetingRunTurns ..

/-- After `call_meeting_state` succeeds, the agency map is — up to history and
capability changes on existing agents — the original map with the temporary
host set under the synthetic id. -/
theorem call_meeting_state_coreMap (resp : Nat → String → Except String String)
    (ag : Agency) (host_id obj : String) (mt : Nat) (p : Option String) (tr : MeetingTrace)
    (h : call_meeting_state resp ag host_id obj mt p = some tr) :
    tr.temp_host_id = host_id ++ "_temp" ∧
    ∃ th : Agent, coreMap tr.state.ag.agents
      = coreMap (aset ag.agents (host_id ++ "_temp") th) := by
  rcases hh : alookup ag.agents host_id with _ | host
  · rw [call_meeting_state.eq_def, hh] at h
    exact Option.noConfusion h
  · rw [call_meeting_state.eq_def, hh] at h
    dsimp only at h
    by_cases hc : host.children.isEmpty
    · rw [if_pos hc] at h
      exact Option.noConfusion h
    · rw [if_neg hc] at h
      injection h with h
      subst h
      refine ⟨rfl, ?_⟩
      apply Exists.intro
      dsimp only
      rw [coreMap_meetingRunRounds]
      dsimp only
      rw [coreMap_appendHist]
      rw [coreMap_foldl _ (fun a cid => coreMap_appendHist a cid _)]
      rw [coreMap_foldl _ (fun a cid => coreMap_appendHist a cid _)]
      rw [coreMap_appendHist]
      rw [coreMap_saveAndClearTools]

theorem akeys_aerase {α : Type} (l : List (String × α)) (k : String) :
    akeys (aerase l k) = (akeys l).erase k := by
  induction l with
  | nil => rfl
  | cons p t ih =>
    obtain ⟨k₀, v₀⟩ := p
    by_cases h₀ : k₀ = k
    · subst h₀
      simp [aerase, akeys]
    · simp only [aerase, if_neg h₀, akeys, List.map_cons]
      have he : (k₀ :: t.map Prod.fst).erase k = k₀ :: (t.map Prod.fst).erase k := by
        rw [List.erase_cons]
        simp [h₀]
      rw [he]
      simpa [akeys] using ih

/-- The teardown's effect on the agency map, when the synthetic id is present
at loop end: up to history/capability changes (the restore and the
meeting-end entries), it erases the synthetic id. -/
theorem meetingTeardown_agents (tr : MeetingTrace)
    (hmem : tr.temp_host_id ∈ akeys tr.state.ag.agents) :
    ∃ B : Agency, coreMap B.agents = coreMap tr.state.ag.agents ∧
      (meetingTeardown tr).1.agents = aerase B.agents tr.temp_host_id := by
  refine ⟨tr.children.foldl
      (fun a cid => appendHist a cid (HistEntry.userPrompt meetingEndMessage))
      (tr.children.foldl
        (fun a cid => { a with
          agents := amodify a.agents cid
            (fun c => { c with accessible_tools := (alookup tr.orig_tools cid).getD [] }) })
        tr.state.ag), ?_, ?_⟩
  · rw [coreMap_foldl _ (fun a cid => coreMap_appendHist a cid _)]
    exact coreMap_foldl _ (fun a cid => coreMap_amodify a.agents cid
      (fun c => { c with accessible_tools := (alookup tr.orig_tools cid).getD [] })
      (fun _ => rfl)) _ _
  · have hsome : (alookup (tr.children.foldl
        (fun a cid => appendHist a cid (HistEntry.userPrompt meetingEndMessage))
        (tr.children.foldl
          (fun a cid => { a with
            agents := amodify a.agents cid
              (fun c => { c with accessible_tools := (alookup tr.orig_tools cid).getD [] }) })
          tr.state.ag)).agents tr.temp_host_id).isSome := by
      rw [alookup_isSome_iff]
      have hcm : coreMap ((tr.children.foldl
          (fun a cid => appendHist a cid (HistEntry.userPrompt meetingEndMessage))
          (tr.children.foldl
            (fun a cid => { a with
              agents := amodify a.agents cid
                (fun c => { c with accessible_tools := (alookup tr.orig_tools cid).getD [] }) })
            tr.state.ag))).agents = coreMap tr.state.ag.agents := by
        rw [coreMap_foldl _ (fun a cid => coreMap_appendHist a cid _)]
        exact coreMap_foldl _ (fun a cid => coreMap_amodify a.agents cid
          (fun c => { c with accessible_tools := (alookup tr.orig_tools cid).getD [] })
          (fun _ => rfl)) _ _
      rw [akeys_eq_of_coreMap_eq _ _ hcm]
      exact hmem
    rw [meetingTeardown]
    dsimp only
    rw [if_pos hsome]

/-- **C4** (amended).  `call_meeting` does register the host-delegate in the
actor map (see `temp_host_registered_during_meeting`), but provided no actor
already occupies the synthetic id `host_id ++ "_temp"` — neither as a map key
nor as a stored agent id — every completed `call_meeting` deletes it again:
afterwards the synthetic id resolves to nothing in the actor map and no record
of a snapshot taken then carries it. -/
theorem temp_host_gone_after_meeting (resp : Nat → String → Except String String)
    (ag : Agency) (host_id obj : String) (mt : Nat) (p : Option String)
    (ag' : Agency) (out : String)
    (hpre : (host_id ++ "_temp") ∉ akeys ag.agents)
    (hid : ∀ q ∈ ag.agents, q.2.id ≠ host_id ++ "_temp")
    (hrun : call_meeting resp ag host_id obj mt p = some (ag', out)) :
    alookup ag'.agents (host_id ++ "_temp") = none
    ∧ ∀ st ∈ (Agency.save_state ag').agents, st.id ≠ host_id ++ "_temp" := by
  rcases hh : alookup ag.agents host_id with _ | host
  · rw [call_meeting.eq_def, hh] at hrun
    exact Option.noConfusion hrun
  · rw [call_meeting.eq_def, hh] at hrun
    dsimp only at hrun
    by_cases hc : host.children.isEmpty
    · rw [if_pos hc] at hrun
      injection hrun with hrun
      rw [Prod.mk.injEq] at hrun
      obtain ⟨h1, _⟩ := hrun
      subst h1
      constructor
      · exact (alookup_eq_none_iff _ _).mpr hpre
      · intro st hst
        simp only [Agency.save_state] at hst
        obtain ⟨q, hq, rfl⟩ := List.mem_map.mp hst
        exact hid q hq
    · rw [if_neg hc] at hrun
      rw [Option.map_eq_some'] at hrun
      obtain ⟨tr, htr, hteard⟩ := hrun
      obtain ⟨htempid, th, hcm⟩ := call_meeting_state_coreMap resp ag host_id obj mt p tr htr
      have hkeys : akeys tr.state.ag.agents = akeys ag.agents ++ [host_id ++ "_temp"] := by
        rw [akeys_eq_of_coreMap_eq _ _ hcm, aset_of_not_mem _ _ _ hpre]
        simp [akeys]
      have hmem : tr.temp_host_id ∈ akeys tr.state.ag.agents := by
        rw [htempid, hkeys]
        simp
      obtain ⟨B, hBcm, hBer⟩ := meetingTeardown_agents tr hmem
      rw [hteard] at hBer
      have hag'2 : ag'.agents = aerase B.agents (host_id ++ "_temp") := by
        rw [← htempid]
        exact hBer
      have hBkeys : akeys B.agents = akeys ag.agents ++ [host_id ++ "_temp"] := by
        rw [akeys_eq_of_coreMap_eq _ _ hBcm, hkeys]
      have hkeys' : akeys ag'.agents = akeys ag.agents := by
        rw [hag'2, akeys_aerase, hBkeys, List.erase_append_right _ hpre]
        simp
      have hcm2 : coreMap B.agents
          = coreMap ag.agents ++ [(host_id ++ "_temp", coreObs th)] := by
        rw [hBcm, hcm, aset_of_not_mem _ _ _ hpre]
        simp [coreMap]
      constructor
      · rw [alookup_eq_none_iff, hkeys']
        exact hpre
      · intro st hst
        simp only [Agency.save_state] at hst
        obtain ⟨q, hq, rfl⟩ := List.mem_map.mp hst
        show q.2.id ≠ _
        have hqB : q ∈ B.agents := mem_of_mem_aerase _ _ _ (hag'2 ▸ hq)
        have hq' : (q.1, coreObs q.2) ∈ coreMap ag.agents ++ [(host_id ++ "_temp", coreObs th)] := by
          rw [← hcm2]
          exact List.mem_map_of_mem _ hqB
        rcases List.mem_append.mp hq' with hq' | hq'
        · obtain ⟨p₀, hp₀, hpe⟩ := List.mem_map.mp hq'
          have hid0 := hid p₀ hp₀
          have hide : p₀.2.id = q.2.id := congrArg (fun t => t.2.2.1) hpe
          rw [← hide]
          exact hid0
        · simp only [List.mem_singleton, Prod.mk.injEq] at hq'
          have hq1 : q.1 = host_id ++ "_temp" := hq'.1
          have hmem' : q.1 ∈ akeys ag'.agents := List.mem_map_of_mem _ hq
          rw [hkeys', hq1] at hmem'
          exact absurd hmem' hpre

/-! ## Per-key effects of the meeting's folds -/

theorem not_isEmpty_of_mem {α : Type} {l : List α} {x : α} (h : x ∈ l) : ¬ l.isEmpty := by
  cases l
  · simp at h
  · simp [List.isEmpty]

theorem alookup_foldl_modify_not_mem (g : String → Agent → Agent) :
    ∀ (l : List String) (ag : Agency) (q : String), q ∉ l →
      alookup ((l.foldl (fun a cid => { a with agents := amodify a.agents cid (g cid) }) ag)).agents q
        = alookup ag.agents q := by
  intro l
  induction l with
  | nil => intro ag q _; rfl
  | cons hd rest ih =>
    intro ag q hq
    rw [List.foldl_cons]
    rw [ih _ q (fun hx => hq (List.mem_cons_of_mem _ hx))]
    exact alookup_amodify_ne _ _ _ _ (fun he => hq (he ▸ List.mem_cons_self _ _))

theorem alookup_foldl_modify (g : String → Agent → Agent) :
    ∀ (l : List String), l.Nodup → ∀ (ag : Agency) (q : String),
      alookup ((l.foldl (fun a cid => { a with agents := amodify a.agents cid (g cid) }) ag)).agents q
        = if q ∈ l then (alookup ag.agents q).map (g q) else alookup ag.agents q := by
  intro l
  induction l with
  | nil => intro _ ag q; simp
  | cons hd rest ih =>
    intro hnd ag q
    rw [List.foldl_cons]
    by_cases hq : q = hd
    · subst hq
      rw [if_pos (List.mem_cons_self _ _)]
      rw [alookup_foldl_modify_not_mem g rest _ q (List.nodup_cons.mp hnd).1]
      exact alookup_amodify_self _ _ _
    · rw [ih (List.nodup_cons.mp hnd).2]
      by_cases hm : q ∈ rest
      · rw [if_pos hm, if_pos (List.mem_cons_of_mem _ hm)]
        rw [alookup_amodify_ne _ _ _ _ (fun he => hq he.symm)]
      · rw [if_neg hm, if_neg (by simp [hq, hm])]
        exact alookup_amodify_ne _ _ _ _ (fun he => hq he.symm)

/-- The value recorded for `cid` in `original_accessible_tools` is the
capability dict `cid` had when the save-and-clear pass reached it — for the
first occurrence, its pre-meeting value. -/
theorem saveAndClearTools_snd_lookup (cid : String) (c₀ : Agent) :
    ∀ (cs : List String) (ag : Agency)
      (acc : List (String × List (String × Bool))),
      cid ∈ cs → alookup ag.agents cid = some c₀ → alookup acc cid = none →
      alookup ((cs.foldl (fun acc cid =>
        match alookup acc.1.agents cid with
        | none => acc
        | some c =>
          ({ acc.1 with
              agents := amodify acc.1.agents cid (fun a => { a with accessible_tools := [] }) },
           acc.2 ++ [(cid, c.accessible_tools)])) (ag, acc))).2 cid
        = some c₀.accessible_tools := by
  have already : ∀ (cs : List String) (pr : Agency × List (String × List (String × Bool)))
      (v : List (String × Bool)), alookup pr.2 cid = some v →
      alookup ((cs.foldl (fun acc cid =>
        match alookup acc.1.agents cid with
        | none => acc
        | some c =>
          ({ acc.1 with
              agents := amodify acc.1.agents cid (fun a => { a with accessible_tools := [] }) },
           acc.2 ++ [(cid, c.accessible_tools)])) pr)).2 cid = some v := by
    intro cs
    induction cs with
    | nil => intro pr v hv; exact hv
    | cons hd rest ih =>
      intro pr v hv
      rw [List.foldl_cons]
      rcases hl : alookup pr.1.agents hd with _ | c
      · exact ih pr v hv
      · exact ih _ v (alookup_append_of_some _ _ _ _ hv)
  intro cs
  induction cs with
  | nil => intro ag acc hm; simp at hm
  | cons hd rest ih =>
    intro ag acc hm hag hacc
    rw [List.foldl_cons]
    dsimp only
    by_cases hhd : hd = cid
    · subst hhd
      rw [hag]
      refine already rest _ _ ?_
      dsimp only
      rw [alookup_append_of_none _ _ _ hacc]
      simp [alookup]
    · rcases List.mem_cons.mp hm with he | hm'
      · exact absurd he.symm hhd
      · rcases hl : alookup ag.agents hd with _ | c
        · exact ih ag acc hm' hag hacc
        · refine ih _ _ hm' ?_ ?_
          · dsimp only
            rw [alookup_amodify_ne _ _ _ _ hhd]
            exact hag
          · dsimp only
            rw [alookup_append_of_none _ _ _ hacc]
            simp [alookup, hhd]

/-- Conditional-erase helper matching the teardown's final `if`. -/
theorem alookup_condErase {c : Prop} [Decidable c] (X : Agency) (k cid : String)
    (hne : k ≠ cid) :
    alookup (if c then { X with agents := aerase X.agents k } else X).agents cid
      = alookup X.agents cid := by
  by_cases h : c
  · rw [if_pos h]
    exact alookup_aerase_ne _ _ _ hne
  · rw [if_neg h]

/-- The teardown sets each child's capability dict to the saved
`original_accessible_tools.get(child.id, {})` — regardless of what the round
loop did. -/
theorem meetingTeardown_tools (tr : MeetingTrace) (cid : String)
    (hnd : tr.children.Nodup) (hc : cid ∈ tr.children) (hcne : tr.temp_host_id ≠ cid)
    (v : Agent) (hv : alookup tr.state.ag.agents cid = some v) :
    (alookup (meetingTeardown tr).1.agents cid).map Agent.accessible_tools
      = some ((alookup tr.orig_tools cid).getD []) := by
  rw [meetingTeardown]
  dsimp only
  rw [alookup_condErase _ _ _ hcne]
  simp only [appendHist]
  rw [alookup_foldl_modify _ tr.children hnd]
  rw [if_pos hc]
  rw [alookup_foldl_modify _ tr.children hnd]
  rw [if_pos hc, hv]
  rfl

/-- Loop-invariant components of the trace returned by `call_meeting_state`. -/
theorem call_meeting_state_fields (resp : Nat → String → Except String String)
    (ag : Agency) (host_id obj : String) (mt : Nat) (p : Option String)
    (tr : MeetingTrace) (host : Agent)
    (hhost : alookup ag.agents host_id = some host)
    (h : call_meeting_state resp ag host_id obj mt p = some tr) :
    tr.temp_host_id = host_id ++ "_temp"
    ∧ tr.children = host.children
    ∧ tr.participants = (host_id ++ "_temp") :: host.children
    ∧ tr.max_rounds = min (mt * ((host_id ++ "_temp") :: host.children).length) 15 := by
  rw [call_meeting_state.eq_def, hhost] at h
  dsimp only at h
  by_cases hc : host.children.isEmpty
  · rw [if_pos hc] at h
    exact Option.noConfusion h
  · rw [if_neg hc] at h
    injection h with h
    subst h
    exact ⟨rfl, rfl, rfl, rfl⟩

/-- The `original_accessible_tools` saved by `call_meeting` maps each child id
to that child's pre-meeting capability dict. -/
theorem call_meeting_state_orig_lookup (resp : Nat → String → Except String String)
    (ag : Agency) (host_id obj : String) (mt : Nat) (p : Option String)
    (tr : MeetingTrace) (host : Agent) (cid : String) (c₀ : Agent)
    (hhost : alookup ag.agents host_id = some host)
    (h : call_meeting_state resp ag host_id obj mt p = some tr)
    (hc : cid ∈ host.children)
    (hcne : cid ≠ host_id ++ "_temp")
    (hc₀ : alookup ag.agents cid = some c₀) :
    alookup tr.orig_tools cid = some c₀.accessible_tools := by
  rw [call_meeting_state.eq_def, hhost] at h
  dsimp only at h
  rw [if_neg (not_isEmpty_of_mem hc)] at h
  injection h with h
  subst h
  dsimp only
  rw [saveAndClearTools]
  refine saveAndClearTools_snd_lookup cid c₀ host.children _ [] hc ?_ rfl
  dsimp only
  rw [alookup_aset_ne _ _ _ _ (fun he => hcne he.symm)]
  exact hc₀

/-! ## C6 — capability-set restoration -/

/-- **C6** (confirmed).  For any backend behaviour and any host whose children
ids are duplicate-free and present in the actor map (and no actor occupies the
synthetic id), `call_meeting` completes and each child's capability dict
afterwards equals its pre-meeting value — even though it was cleared to empty
for the session. -/
theorem meeting_restores_child_tools (resp : Nat → String → Except String String)
    (ag : Agency) (host_id obj : String) (mt : Nat) (p : Option String)
    (host : Agent) (cid : String)
    (hhost : alookup ag.agents host_id = some host)
    (hnd : host.children.Nodup)
    (hc : cid ∈ host.children)
    (hck : cid ∈ akeys ag.agents)
    (hpre : (host_id ++ "_temp") ∉ akeys ag.agents) :
    ∃ r, call_meeting resp ag host_id obj mt p = some r
      ∧ (alookup r.1.agents cid).map Agent.accessible_tools
        = (alookup ag.agents cid).map Agent.accessible_tools := by
  have hcne : ¬ host.children.isEmpty := not_isEmpty_of_mem hc
  have htempne : (host_id ++ "_temp") ≠ cid := fun he => hpre (he ▸ hck)
  rcases htr : call_meeting_state resp ag host_id obj mt p with _ | tr
  · rw [call_meeting_state.eq_def, hhost] at htr
    dsimp only at htr
    rw [if_neg hcne] at htr
    exact Option.noConfusion htr
  · refine ⟨meetingTeardown tr, ?_, ?_⟩
    · rw [call_meeting.eq_def, hhost]
      dsimp only
      rw [if_neg hcne, htr]
      rfl
    · obtain ⟨htemp, hchil, _, _⟩ :=
        call_meeting_state_fields resp ag host_id obj mt p tr host hhost htr
      have hcksome := (alookup_isSome_iff ag.agents cid).mpr hck
      obtain ⟨c₀, hc₀⟩ := Option.isSome_iff_exists.mp hcksome
      obtain ⟨_, th, hcm⟩ := call_meeting_state_coreMap resp ag host_id obj mt p tr htr
      have hkeys : akeys tr.state.ag.agents = akeys ag.agents ++ [host_id ++ "_temp"] := by
        rw [akeys_eq_of_coreMap_eq _ _ hcm, aset_of_not_mem _ _ _ hpre]
        simp [akeys]
      have hmem : cid ∈ akeys tr.state.ag.agents := by
        rw [hkeys]
        exact List.mem_append_left _ hck
      obtain ⟨v, hv⟩ := Option.isSome_iff_exists.mp ((alookup_isSome_iff _ _).mpr hmem)
      have hnd' : tr.children.Nodup := by
        rw [hchil]
        exact hnd
      have hc' : cid ∈ tr.children := by
        rw [hchil]
        exact hc
      have hct : tr.temp_host_id ≠ cid := by
        rw [htemp]
        exact htempne
      have ht := meetingTeardown_tools tr cid hnd' hc' hct v hv
      have horig := call_meeting_state_orig_lookup resp ag host_id obj mt p tr host cid c₀
        hhost htr hc (fun he => htempne he.symm) hc₀
      rw [ht, horig, hc₀]
      rfl

/-- Witness: the concrete scenario meeting restores child `"1"`'s tools. -/
theorem meeting_restores_child_tools_witness :
    ∃ r, call_meeting scenarioResp hostAgency "0" "obj" 2 none = some r
      ∧ (alookup r.1.agents "1").map Agent.accessible_tools
        = (alookup hostAgency.agents "1").map Agent.accessible_tools :=
  meeting_restores_child_tools scenarioResp hostAgency "0" "obj" 2 none
    (mkFixtureAgent "0" "main_agent" ["1", "2"] none
      [("create_new_agent", true), ("message_agent", true), ("call_meeting", true)])
    "1" (by decide) (by decide) (by decide) (by decide) (by decide)

/-- **C2** (amended).  Whenever the caller resolves and its depth computes,
the `create_new_agent` gate's decision is exactly: capability enabled, and
computed depth below `max_depth`, and child count below `max_breadth`.  The
equation shows the gate never consults `max_agents` or the actor count, and —
being a pure read — a withheld tool mutates nothing. -/
theorem prepare_create_gate_characterization (ag : Agency) (agent_id : String)
    (a : Agent) (d : Nat)
    (ha : alookup ag.agents agent_id = some a)
    (hd : curr_depth ag a = some d) :
    prepare_create_new_agent_tool ag agent_id
      = some (((a.accessible_tools.lookup "create_new_agent").getD false)
          && decide (d < ag.max_depth)
          && decide (curr_breadth a < ag.max_breadth)) := by
  rw [prepare_create_new_agent_tool.eq_def, ha]
  dsimp only
  rw [hd]
  dsimp only
  rcases ht : (a.accessible_tools.lookup "create_new_agent").getD false with _ | _
  · simp [ht]
  · simp only [ht, Bool.not_true, Bool.false_eq_true, if_false, Bool.true_and]
    by_cases h1 : ag.max_depth ≤ d
    · rw [if_pos h1]
      simp [Nat.not_lt.mpr h1]
    · rw [if_neg h1]
      by_cases h2 : ag.max_breadth ≤ curr_breadth a
      · rw [if_pos h2]
        simp [Nat.not_lt.mpr h2]
      · rw [if_neg h2]
        simp [Nat.lt_of_not_le h1, Nat.lt_of_not_le h2]

/-- Witness: in `hostAgency` the root passes all three gate conditions and
the tool is offered. -/
theorem prepare_create_gate_characterization_witness :
    prepare_create_new_agent_tool hostAgency "0" = some true := by
  have h := prepare_create_gate_characterization hostAgency "0"
    (mkFixtureAgent "0" "main_agent" ["1", "2"] none
      [("create_new_agent", true), ("message_agent", true), ("call_meeting", true)])
    0 (by decide) (by decide)
  exact h.trans (by decide)

/-! ## C7 — turn failure isolation -/

/-- The outer loop enters at most `fuel` round bodies. -/
theorem meetingRunRounds_rounds_le (resp : Nat → String → Except String String)
    (participants : List String) (temp_host_id host_id : String) (max_rounds : Nat) :
    ∀ (fuel : Nat) (st : MeetingLoopState),
      (meetingRunRounds resp participants temp_host_id host_id max_rounds fuel st).rounds
        ≤ st.rounds + fuel := by
  intro fuel
  induction fuel with
  | zero => intro st; simp [meetingRunRounds]
  | succ n ih =>
    intro st
    simp only [meetingRunRounds]
    by_cases hd : st.agents_done.length == participants.length
    · simp only [hd, if_true]
      omega
    · simp only [hd, Bool.false_eq_true, if_false]
      by_cases ht : max_rounds ≤
          (meetingRunTurns resp participants temp_host_id host_id participants st).turn
      · rw [if_pos ht]
        dsimp only
        omega
      · rw [if_neg ht]
        have h := ih { meetingRunTurns resp participants temp_host_id host_id participants st
                       with rounds := st.rounds + 1 }
        dsimp only at h
        omega

/-- **C7** (confirmed).  (1) A turn whose backend raises appends exactly one
transcript entry — carrying the error message — to the log, adds the speaker
to the ready set, leaves the agency (all histories) untouched, and never
fires the inner break.  (2) For every oracle — in particular one that raises
on every single invocation — and any resolvable host, `call_meeting` returns a
result, and the round loop runs at most `max_rounds ≤ 15` round bodies: a
persistently failing participant cannot prevent completion. -/
theorem meeting_turn_failure_isolation :
    (∀ (resp : Nat → String → Except String String) (participants : List String)
       (temp_host_id host_id : String) (st : MeetingLoopState) (pid : String)
       (a : Agent) (e : String),
       alookup st.ag.agents pid = some a →
       resp (st.turn + 1) pid = Except.error e →
       meetingTurnStep resp participants temp_host_id host_id st pid
         = ({ st with
              log := st.log ++ [⟨a.name, if pid ≠ temp_host_id then pid else host_id,
                                s!"Error during response: {e}"⟩],
              agents_done := insertDone st.agents_done pid,
              turn := st.turn + 1 }, false))
    ∧ (∀ (resp : Nat → String → Except String String) (ag : Agency)
         (host_id obj : String) (mt : Nat) (p : Option String),
         (alookup ag.agents host_id).isSome →
         (call_meeting resp ag host_id obj mt p).isSome
         ∧ ∀ tr, call_meeting_state resp ag host_id obj mt p = some tr →
             tr.state.rounds ≤ tr.max_rounds ∧ tr.max_rounds ≤ 15) := by
  constructor
  · intro resp participants temp_host_id host_id st pid a e hlook hre
    rw [meetingTurnStep.eq_def]
    dsimp only
    rw [hre]
    dsimp only
    rw [hlook]
    rfl
  · intro resp ag host_id obj mt p hhost
    rcases hh : alookup ag.agents host_id with _ | host
    · rw [hh] at hhost
      simp at hhost
    · constructor
      · rw [call_meeting.eq_def, hh]
        dsimp only
        by_cases hc : host.children.isEmpty
        · simp [hc]
        · rw [if_neg hc]
          rw [call_meeting_state.eq_def, hh]
          dsimp only
          rw [if_neg hc]
          simp
      · intro tr htr
        rw [call_meeting_state.eq_def, hh] at htr
        dsimp only at htr
        by_cases hc : host.children.isEmpty
        · rw [if_pos hc] at htr
          exact Option.noConfusion htr
        · rw [if_neg hc] at htr
          injection htr with htr
          subst htr
          constructor
          · dsimp only
            refine le_trans (meetingRunRounds_rounds_le _ _ _ _ _ _ _) ?_
            simp
          · dsimp only
            exact min_le_right _ _

/-- Witness: with the always-raising backend, the first child's turn appends
one error entry and does not break, and the meeting still completes within
the budget. -/
theorem meeting_turn_failure_isolation_witness :
    (meetingTurnStep failingResp ["0_temp", "1", "2"] "0_temp" "0"
        { ag := hostAgency, agents_done := [], turn := 0, log := [], rounds := 0 } "1"
      = ({ ag := hostAgency,
           agents_done := insertDone [] "1",
           turn := 1,
           log := [⟨"alice", "1", "Error during response: boom from 1"⟩],
           rounds := 0 }, false))
    ∧ (call_meeting failingResp hostAgency "0" "obj" 2 none).isSome := by
  constructor
  · have h := meeting_turn_failure_isolation.1 failingResp ["0_temp", "1", "2"] "0_temp" "0"
      { ag := hostAgency, agents_done := [], turn := 0, log := [], rounds := 0 } "1"
      (mkFixtureAgent "1" "alice" [] none [("message_agent", true)]) "boom from 1"
      (by decide) (by rfl)
    rw [h]
    rfl
  · exact (meeting_turn_failure_isolation.2 failingResp hostAgency "0" "obj" 2 none
      (by decide)).1

/-! ## C10 — speaker attribution -/

theorem alookup_appendHist_ne (ag : Agency) (k q : String) (e : HistEntry) (h : k ≠ q) :
    alookup (appendHist ag k e).agents q = alookup ag.agents q := by
  simp only [appendHist]
  exact alookup_amodify_ne _ _ _ _ h

theorem alookup_appendHist_self (ag : Agency) (k : String) (e : HistEntry) :
    alookup (appendHist ag k e).agents k
      = (alookup ag.agents k).map
          (fun b => { b with message_history := b.message_history ++ [e] }) := by
  simp only [appendHist]
  exact alookup_amodify_self _ _ _

theorem broadcast_fold_lookup_not_mem (pid : String) (e : HistEntry) :
    ∀ (l : List String) (ag : Agency) (q : String), q ∉ l →
      alookup ((l.foldl (fun a other =>
        if other ≠ pid then appendHist a other e else a) ag)).agents q
        = alookup ag.agents q := by
  intro l
  induction l with
  | nil => intro ag q _; rfl
  | cons hd rest ih =>
    intro ag q hq
    rw [List.foldl_cons]
    rw [ih _ q (fun hx => hq (List.mem_cons_of_mem _ hx))]
    by_cases hhd : hd ≠ pid
    · rw [if_pos hhd]
      exact alookup_appendHist_ne _ _ _ _ (fun he => hq (he ▸ List.mem_cons_self _ _))
    · rw [if_neg hhd]

/-- The broadcast pass appends `e` to every participant other than the
speaker, exactly once (participant order is duplicate-free). -/
theorem broadcast_fold_lookup (pid : String) (e : HistEntry) :
    ∀ (l : List String), l.Nodup → ∀ (ag : Agency) (q : String), q ≠ pid →
      alookup ((l.foldl (fun a other =>
        if other ≠ pid then appendHist a other e else a) ag)).agents q
        = if q ∈ l
          then (alookup ag.agents q).map
            (fun b => { b with message_history := b.message_history ++ [e] })
          else alookup ag.agents q := by
  intro l
  induction l with
  | nil => intro _ ag q _; simp
  | cons hd rest ih =>
    intro hnd ag q hqpid
    rw [List.foldl_cons]
    by_cases hq : q = hd
    · subst hq
      rw [if_pos (List.mem_cons_self _ _)]
      rw [broadcast_fold_lookup_not_mem pid e rest _ q (List.nodup_cons.mp hnd).1]
      rw [if_pos hqpid]
      exact alookup_appendHist_self _ _ _
    · rw [ih (List.nodup_cons.mp hnd).2 _ q hqpid]
      have hstep : alookup (if hd ≠ pid then appendHist ag hd e else ag).agents q
          = alookup ag.agents q := by
        by_cases hhd : hd ≠ pid
        · rw [if_pos hhd]
          exact alookup_appendHist_ne _ _ _ _ (fun he => hq he.symm)
        · rw [if_neg hhd]
      rw [hstep]
      by_cases hm : q ∈ rest
      · rw [if_pos hm, if_pos (List.mem_cons_of_mem _ hm)]
      · rw [if_neg hm, if_neg (by simp [hq, hm])]

/-- Every turn appends exactly one transcript entry, attributed to the
speaker's id with the host-delegate mapped back to the host. -/
theorem meetingTurnStep_log_suffix (resp : Nat → String → Except String String)
    (participants : List String) (temp_host_id host_id : String)
    (st : MeetingLoopState) (pid : String) :
    ∃ nm msg, (meetingTurnStep resp participants temp_host_id host_id st pid).1.log
      = st.log ++ [⟨nm, if pid ≠ temp_host_id then pid else host_id, msg⟩] := by
  rcases hr : resp (st.turn + 1) pid with e | data
  · rw [meetingTurnStep.eq_def]
    dsimp only
    rw [hr]
    exact ⟨_, _, rfl⟩
  · rw [meetingTurnStep.eq_def]
    dsimp only
    rw [hr]
    exact ⟨_, _, rfl⟩

theorem meetingRunTurns_log_suffix (resp : Nat → String → Except String String)
    (participants : List String) (temp_host_id host_id : String) :
    ∀ (ps : List String) (st : MeetingLoopState),
      ∃ new, (meetingRunTurns resp participants temp_host_id host_id ps st).log
          = st.log ++ new
        ∧ ∀ en ∈ new, ∃ pid ∈ ps,
            en.agent_id = if pid ≠ temp_host_id then pid else host_id := by
  intro ps
  induction ps with
  | nil =>
    intro st
    exact ⟨[], by simp [meetingRunTurns], by simp⟩
  | cons pid rest ih =>
    intro st
    obtain ⟨nm, msg, hstep⟩ :=
      meetingTurnStep_log_suffix resp participants temp_host_id host_id st pid
    simp only [meetingRunTurns]
    by_cases hb : (meetingTurnStep resp participants temp_host_id host_id st pid).2
    · rw [if_pos hb]
      refine ⟨[⟨nm, if pid ≠ temp_host_id then pid else host_id, msg⟩], hstep, ?_⟩
      intro en hen
      simp only [List.mem_singleton] at hen
      subst hen
      exact ⟨pid, List.mem_cons_self _ _, rfl⟩
    · rw [if_neg hb]
      obtain ⟨new, hlog, hmem⟩ :=
        ih (meetingTurnStep resp participants temp_host_id host_id st pid).1
      refine ⟨⟨nm, if pid ≠ temp_host_id then pid else host_id, msg⟩ :: new, ?_, ?_⟩
      · rw [hlog, hstep]
        simp
      · intro en hen
        rcases List.mem_cons.mp hen with he | he
        · subst he
          exact ⟨pid, List.mem_cons_self _ _, rfl⟩
        · obtain ⟨pid', hp', he'⟩ := hmem en he
          exact ⟨pid', List.mem_cons_of_mem _ hp', he'⟩

theorem meetingRunRounds_log_suffix (resp : Nat → String → Except String String)
    (participants : List String) (temp_host_id host_id : String) (max_rounds : Nat) :
    ∀ (fuel : Nat) (st : MeetingLoopState),
      ∃ new, (meetingRunRounds resp participants temp_host_id host_id max_rounds fuel st).log
          = st.log ++ new
        ∧ ∀ en ∈ new, ∃ pid ∈ participants,
            en.agent_id = if pid ≠ temp_host_id then pid else host_id := by
  intro fuel
  induction fuel with
  | zero =>
    intro st
    exact ⟨[], by simp [meetingRunRounds], by simp⟩
  | succ n ih =>
    intro st
    simp only [meetingRunRounds]
    by_cases hd : st.agents_done.length == participants.length
    · simp only [hd, if_true]
      exact ⟨[], by simp, by simp⟩
    · simp only [hd, Bool.false_eq_true, if_false]
      obtain ⟨new₁, hlog₁, hmem₁⟩ :=
        meetingRunTurns_log_suffix resp participants temp_host_id host_id participants st
      by_cases ht : max_rounds ≤
          (meetingRunTurns resp participants temp_host_id host_id participants st).turn
      · rw [if_pos ht]
        exact ⟨new₁, hlog₁, hmem₁⟩
      · rw [if_neg ht]
        obtain ⟨new₂, hlog₂, hmem₂⟩ :=
          ih { meetingRunTurns resp participants temp_host_id host_id participants st
               with rounds := st.rounds + 1 }
        refine ⟨new₁ ++ new₂, ?_, ?_⟩
        · rw [hlog₂]
          dsimp only
          rw [hlog₁, List.append_assoc]
        · intro en hen
          rcases List.mem_append.mp hen with he | he
          · exact hmem₁ en he
          · exact hmem₂ en he

/-- **C10** (confirmed).  (1) On a successful turn the transcript entry and
every broadcast history entry are attributed to `logging_agent_id` — the
speaker's tree id, with the host-delegate's synthetic id replaced by the
host's id.  (2) In any completed round loop, every transcript entry after the
initialization entry carries either the host's id or a child's id — never the
synthetic id (provided no child uses it). -/
theorem meeting_speaker_attribution :
    (∀ (resp : Nat → String → Except String String) (participants : List String)
       (temp_host_id host_id : String) (st : MeetingLoopState) (pid : String)
       (a : Agent) (data : String),
       alookup st.ag.agents pid = some a →
       participants.Nodup →
       resp (st.turn + 1) pid = Except.ok data →
       (meetingTurnStep resp participants temp_host_id host_id st pid).1.log
         = st.log ++ [⟨a.name, if pid ≠ temp_host_id then pid else host_id, pyStrip data⟩]
       ∧ ∀ q ∈ participants, q ≠ pid → ∀ b, alookup st.ag.agents q = some b →
           alookup ((meetingTurnStep resp participants temp_host_id host_id st pid)).1.ag.agents q
             = some { b with message_history := b.message_history
                 ++ [HistEntry.userPrompt
                     s!"From {a.name} ({if pid ≠ temp_host_id then pid else host_id}): {pyStrip data}"] })
    ∧ (∀ (resp : Nat → String → Except String String) (ag : Agency)
         (host_id obj : String) (mt : Nat) (p : Option String) (tr : MeetingTrace)
         (host : Agent),
        alookup ag.agents host_id = some host →
        (host_id ++ "_temp") ∉ host.children →
        call_meeting_state resp ag host_id obj mt p = some tr →
        ∀ en ∈ tr.state.log.tail,
          en.agent_id ≠ host_id ++ "_temp"
          ∧ (en.agent_id = host_id ∨ en.agent_id ∈ host.children)) := by
  constructor
  · intro resp participants temp_host_id host_id st pid a data hlook hnd hre
    constructor
    · rw [meetingTurnStep.eq_def]
      dsimp only
      rw [hre]
      dsimp only
      rw [hlook]
      rfl
    · intro q hq hqpid b hb
      rw [meetingTurnStep.eq_def]
      dsimp only
      rw [hre]
      dsimp only
      rw [broadcast_fold_lookup pid _ participants hnd _ q hqpid]
      rw [if_pos hq]
      rw [alookup_appendHist_ne _ _ _ _ (fun he => hqpid he.symm)]
      rw [alookup_appendHist_ne _ _ _ _ (fun he => hqpid he.symm)]
      rw [hb, hlook]
      rfl
  · intro resp ag host_id obj mt p tr host hhost hnomem htr
    rw [call_meeting_state.eq_def, hhost] at htr
    dsimp only at htr
    by_cases hc : host.children.isEmpty
    · rw [if_pos hc] at htr
      exact Option.noConfusion htr
    · rw [if_neg hc] at htr
      injection htr with htr
      subst htr
      dsimp only
      obtain ⟨new, hlog, hmem⟩ := meetingRunRounds_log_suffix resp
        ((host_id ++ "_temp") :: host.children) (host_id ++ "_temp") host_id
        (min (mt * ((host_id ++ "_temp") :: host.children).length) 15)
        (min (mt * ((host_id ++ "_temp") :: host.children).length) 15)
        { ag := _, agents_done := [], turn := 0, log := _, rounds := 0 }
      rw [hlog]
      dsimp only
      rw [List.singleton_append, List.tail_cons]
      intro en hen
      obtain ⟨pid, hpid, hatt⟩ := hmem en hen
      rcases List.mem_cons.mp hpid with he | he
      · subst he
        rw [if_neg (by simp)] at hatt
        constructor
        · rw [hatt]
          exact self_ne_append_temp host_id
        · exact Or.inl hatt
      · have hpidne : pid ≠ host_id ++ "_temp" := fun hbad => hnomem (hbad ▸ he)
        rw [if_pos hpidne] at hatt
        constructor
        · rw [hatt]
          exact hpidne
        · exact Or.inr (hatt ▸ he)

/-- Witness: in the scenario meeting, child `"1"`'s first turn is logged under
id `"1"` and broadcast to `"2"`, and the full run's transcript tail never
names `"0_temp"`. -/
theorem meeting_speaker_attribution_witness :
    ((meetingTurnStep scenarioResp ["0_temp", "1", "2"] "0_temp" "0"
        { ag := hostAgency, agents_done := [], turn := 1, log := [], rounds := 0 } "1").1.log
      = [⟨"alice", "1", pyStrip "Tariffs raise prices. READY_TO_MOVE_ON"⟩])
    ∧ (∀ tr, call_meeting_state scenarioResp hostAgency "0" "obj" 2 none = some tr →
        ∀ en ∈ tr.state.log.tail, en.agent_id ≠ "0" ++ "_temp") := by
  constructor
  · have h := (meeting_speaker_attribution.1 scenarioResp ["0_temp", "1", "2"] "0_temp" "0"
      { ag := hostAgency, agents_done := [], turn := 1, log := [], rounds := 0 } "1"
      (mkFixtureAgent "1" "alice" [] none [("message_agent", true)])
      "Tariffs raise prices. READY_TO_MOVE_ON"
      (by decide) (by decide) (by rfl)).1
    rw [h]
    rfl
  · intro tr htr en hen
    exact (meeting_speaker_attribution.2 scenarioResp hostAgency "0" "obj" 2 none tr
      (mkFixtureAgent "0" "main_agent" ["1", "2"] none
        [("create_new_agent", true), ("message_agent", true), ("call_meeting", true)])
      (by decide) (by decide) htr en hen).1

/-- Witness: after the concrete scenario meeting, `"0_temp"` is gone from the
map and from the snapshot. -/
theorem temp_host_gone_after_meeting_witness :
    ∃ pr, call_meeting scenarioResp hostAgency "0" "obj" 2 none = some pr
      ∧ alookup pr.1.agents ("0" ++ "_temp") = none
      ∧ ∀ st ∈ (Agency.save_state pr.1).agents, st.id ≠ "0" ++ "_temp" := by
  have hsome : (call_meeting scenarioResp hostAgency "0" "obj" 2 none).isSome := by decide
  obtain ⟨pr, hpr⟩ := Option.isSome_iff_exists.mp hsome
  refine ⟨pr, hpr, ?_⟩
  have h := temp_host_gone_after_meeting scenarioResp hostAgency "0" "obj" 2 none pr.1 pr.2
    (by decide) (by decide) (by rw [hpr])
  exact h

/-! ## C8 — removeActor semantics -/

theorem akeys_foldl_modify (g : String → Agent → Agent) :
    ∀ (l : List String) (ag : Agency),
      akeys ((l.foldl (fun a cid => { a with agents := amodify a.agents cid (g cid) }) ag)).agents
        = akeys ag.agents := by
  intro l
  induction l with
  | nil => intro ag; rfl
  | cons hd rest ih =>
    intro ag
    rw [List.foldl_cons, ih]
    exact akeys_amodify _ _ _

/-- When every child id resolves, the orphaning pass of `remove_agent_helper`
succeeds and equals the plain fold of per-child `parent_id := None` updates. -/
theorem orphan_foldM_eq (cids : List String) :
    ∀ (ag : Agency), (∀ c ∈ cids, c ∈ akeys ag.agents) →
      (cids.foldlM (fun acc cid =>
          match alookup acc.agents cid with
          | none => none
          | some _ => some { acc with
              agents := amodify acc.agents cid (fun c => { c with parent_id := none }) }) ag)
        = some (cids.foldl (fun acc cid =>
            { acc with agents := amodify acc.agents cid (fun c => { c with parent_id := none }) }) ag) := by
  induction cids with
  | nil => intro ag _; rfl
  | cons hd rest ih =>
    intro ag hall
    have hm : hd ∈ akeys ag.agents := hall hd (List.mem_cons_self _ _)
    obtain ⟨v, hv⟩ := Option.isSome_iff_exists.mp ((alookup_isSome_iff _ _).mpr hm)
    rw [List.foldlM_cons, hv]
    dsimp only
    rw [List.foldl_cons]
    refine ih _ ?_
    intro c hc
    rw [akeys_amodify]
    exact hall c (List.mem_cons_of_mem _ hc)

/-- **C8** (confirmed).  On an unknown id, `remove_agent_helper` reports
"does not exist" and returns the agency untouched.  On a well-formed tree and
an existing id it succeeds: the removed id resolves to nothing afterwards, the
actor count drops by exactly one, every former child survives with
`parent_id = None` (no cascade deletion), and the id is gone from its former
parent's `children` dict. -/
theorem removeActor_spec (ag : Agency) (agent_id : String) (hwf : WFAgency ag) :
    (alookup ag.agents agent_id = none →
       remove_agent_helper ag agent_id
         = some (ag, s!"Agent with ID {agent_id} does not exist."))
    ∧ (∀ a, alookup ag.agents agent_id = some a →
        ∃ ag', remove_agent_helper ag agent_id
            = some (ag', s!"Removed agent with ID: {agent_id}")
          ∧ alookup ag'.agents agent_id = none
          ∧ ag'.agents.length + 1 = ag.agents.length
          ∧ (∀ cid ∈ a.children, ∃ c, alookup ag'.agents cid = some c ∧ c.parent_id = none)
          ∧ (∀ pid, a.parent_id = some pid →
              ∃ pa, alookup ag'.agents pid = some pa ∧ agent_id ∉ pa.children)) := by
  obtain ⟨hknd, hprops⟩ := hwf
  constructor
  · intro h
    rw [remove_agent_helper.eq_def, h]
  · intro a ha
    have hmem := mem_of_alookup_eq_some _ _ _ ha
    obtain ⟨⟨hcnd, hcall⟩, hpar⟩ := hprops (agent_id, a) hmem
    dsimp only at hcnd hcall hpar
    rw [remove_agent_helper.eq_def, ha]
    dsimp only
    rcases hp : a.parent_id with _ | pid
    · -- no parent: step1 is the identity
      dsimp only
      rw [ha]
      dsimp only
      rw [orphan_foldM_eq a.children ag (fun c hc => (hcall c hc).2)]
      dsimp only
      refine ⟨_, rfl, ?_, ?_, ?_, ?_⟩
      · apply alookup_aerase_self_of_nodup
        rw [akeys_foldl_modify]
        exact hknd
      · have hlen : ((a.children.foldl (fun acc cid =>
            { acc with agents := amodify acc.agents cid (fun c => { c with parent_id := none }) })
            ag)).agents.length = ag.agents.length := by
          have hk := akeys_foldl_modify (fun _ c => { c with parent_id := none }) a.children ag
          have h1 := congrArg List.length hk
          simpa [akeys] using h1
        rw [← hlen]
        apply length_aerase_of_mem
        rw [akeys_foldl_modify]
        exact (alookup_isSome_iff _ _).mp (by rw [ha]; rfl)
      · intro cid hc
        rw [alookup_aerase_ne _ _ _ (fun he => (hcall cid hc).1 he.symm)]
        rw [alookup_foldl_modify _ a.children hcnd]
        rw [if_pos hc]
        obtain ⟨v, hv⟩ := Option.isSome_iff_exists.mp
          ((alookup_isSome_iff _ _).mpr (hcall cid hc).2)
        rw [hv]
        exact ⟨_, rfl, rfl⟩
      · intro pid hpid
        exact Option.noConfusion hpid
    · -- parent present
      obtain ⟨hpne, q, hqmem, hq1, hqc⟩ := hpar pid (by simp [hp])
      obtain ⟨q1, q2⟩ := q
      dsimp only at hq1 hqc
      have hqmem2 : (pid, q2) ∈ ag.agents := hq1 ▸ hqmem
      have hql : alookup ag.agents pid = some q2 :=
        alookup_eq_some_of_mem_nodup _ _ _ hknd hqmem2
      dsimp only
      rw [hql]
      dsimp only
      rw [if_pos hqc]
      dsimp only
      rw [alookup_amodify_ne _ _ _ _ hpne, ha]
      dsimp only
      have hallc : ∀ c ∈ a.children,
          c ∈ akeys ({ ag with
            agents := (amodify ag.agents pid
              (fun q => { q with children := q.children.erase agent_id })) }).agents := by
        intro c hc
        dsimp only
        rw [akeys_amodify]
        exact (hcall c hc).2
      rw [orphan_foldM_eq a.children _ hallc]
      dsimp only
      refine ⟨_, rfl, ?_, ?_, ?_, ?_⟩
      · apply alookup_aerase_self_of_nodup
        rw [akeys_foldl_modify]
        dsimp only
        rw [akeys_amodify]
        exact hknd
      · have hlen : ((a.children.foldl (fun (acc : Agency) (cid : String) =>
            { acc with agents := amodify acc.agents cid (fun c => { c with parent_id := none }) })
            { ag with
              agents := (amodify ag.agents pid
                (fun q => { q with children := q.children.erase agent_id })) })).agents.length
            = ag.agents.length := by
          have hk := akeys_foldl_modify (fun _ c => { c with parent_id := none }) a.children
            { ag with
              agents := (amodify ag.agents pid
                (fun q => { q with children := q.children.erase agent_id })) }
          have h1 := congrArg List.length hk
          simp only [akeys, List.length_map] at h1
          rw [h1]
          exact length_amodify _ _ _
        rw [← hlen]
        apply length_aerase_of_mem
        rw [akeys_foldl_modify]
        dsimp only
        rw [akeys_amodify]
        exact (alookup_isSome_iff _ _).mp (by rw [ha]; rfl)
      · intro cid hc
        rw [alookup_aerase_ne _ _ _ (fun he => (hcall cid hc).1 he.symm)]
        rw [alookup_foldl_modify _ a.children hcnd]
        rw [if_pos hc]
        obtain ⟨v, hv⟩ := Option.isSome_iff_exists.mp
          ((alookup_isSome_iff _ _).mpr (hallc cid hc))
        rw [hv]
        exact ⟨_, rfl, rfl⟩
      · intro pid' hpid'
        injection hpid' with he
        subst he
        rw [alookup_aerase_ne _ _ _ (fun he2 => hpne he2.symm)]
        rw [alookup_foldl_modify _ a.children hcnd]
        obtain ⟨⟨hqnd, _⟩, _⟩ := hprops (pid, q2) hqmem2
        have hnomem : agent_id ∉ q2.children.erase agent_id := by
          intro hbad
          exact absurd ((List.Nodup.mem_erase_iff hqnd).mp hbad).1 (by simp)
        by_cases hpc : pid ∈ a.children
        · rw [if_pos hpc]
          dsimp only
          rw [alookup_amodify_self, hql]
          exact ⟨_, rfl, hnomem⟩
        · rw [if_neg hpc]
          dsimp only
          rw [alookup_amodify_self, hql]
          exact ⟨_, rfl, hnomem⟩

/-- Witness: removing `"1"` from the restored-style chain `0 → 1 → 2`. -/
theorem removeActor_spec_witness :
    ∃ ag', remove_agent_helper chainAgency "1"
        = some (ag', "Removed agent with ID: 1")
      ∧ alookup ag'.agents "1" = none
      ∧ ag'.agents.length + 1 = chainAgency.agents.length
      ∧ (∀ cid ∈ (mkFixtureAgent "1" "mid" ["2"] (some "0") []).children,
          ∃ c, alookup ag'.agents cid = some c ∧ c.parent_id = none)
      ∧ (∀ pid, (mkFixtureAgent "1" "mid" ["2"] (some "0") []).parent_id = some pid →
          ∃ pa, alookup ag'.agents pid = some pa ∧ "1" ∉ pa.children) :=
  (removeActor_spec chainAgency "1" (by unfold WFAgency; decide)).2
    (mkFixtureAgent "1" "mid" ["2"] (some "0") []) (by decide)

/-! ## Pass-2 (child linking) per-key lemmas -/

theorem linkInner_keys (aid : String) :
    ∀ (cids : List String) (pr : List (String × Agent) × List String),
      akeys ((cids.foldl (fun acc₂ cid =>
        if (alookup acc₂.1 cid).isSome then
          (amodify acc₂.1 aid (fun a => { a with children := dictInsertKey a.children cid }),
           acc₂.2)
        else (acc₂.1, acc₂.2 ++ [childWarning aid cid])) pr)).1 = akeys pr.1 := by
  intro cids
  induction cids with
  | nil => intro pr; rfl
  | cons hd rest ih =>
    intro pr
    rw [List.foldl_cons]
    by_cases hs : (alookup pr.1 hd).isSome
    · rw [if_pos hs, ih]
      exact akeys_amodify _ _ _
    · rw [if_neg hs, ih]

theorem linkInner_lookup_other (aid : String) (k : String) (hk : aid ≠ k) :
    ∀ (cids : List String) (pr : List (String × Agent) × List String),
      alookup ((cids.foldl (fun acc₂ cid =>
        if (alookup acc₂.1 cid).isSome then
          (amodify acc₂.1 aid (fun a => { a with children := dictInsertKey a.children cid }),
           acc₂.2)
        else (acc₂.1, acc₂.2 ++ [childWarning aid cid])) pr)).1 k = alookup pr.1 k := by
  intro cids
  induction cids with
  | nil => intro pr; rfl
  | cons hd rest ih =>
    intro pr
    rw [List.foldl_cons]
    by_cases hs : (alookup pr.1 hd).isSome
    · rw [if_pos hs, ih]
      exact alookup_amodify_ne _ _ _ _ hk
    · rw [if_neg hs, ih]

theorem linkInner_lookup_self (aid : String) :
    ∀ (cids : List String) (pr : List (String × Agent) × List String),
      alookup ((cids.foldl (fun acc₂ cid =>
        if (alookup acc₂.1 cid).isSome then
          (amodify acc₂.1 aid (fun a => { a with children := dictInsertKey a.children cid }),
           acc₂.2)
        else (acc₂.1, acc₂.2 ++ [childWarning aid cid])) pr)).1 aid
        = (alookup pr.1 aid).map
            (fun a => { a with children := resolveChildren (akeys pr.1) a.children cids }) := by
  intro cids
  induction cids with
  | nil =>
    intro pr
    simp only [List.foldl_nil]
    rcases h : alookup pr.1 aid with _ | b
    · rfl
    · rfl
  | cons hd rest ih =>
    intro pr
    rw [List.foldl_cons]
    by_cases hs : (alookup pr.1 hd).isSome
    · rw [if_pos hs]
      rw [ih]
      dsimp only
      rw [akeys_amodify, alookup_amodify_self]
      have hmem : hd ∈ akeys pr.1 := (alookup_isSome_iff _ _).mp hs
      rcases h : alookup pr.1 aid with _ | b
      · rfl
      · simp only [Option.map_some', Option.map_map]
        rw [show resolveChildren (akeys pr.1) b.children (hd :: rest)
            = resolveChildren (akeys pr.1) (dictInsertKey b.children hd) rest from by
          rw [resolveChildren, List.foldl_cons, if_pos hmem]
          rfl]
    · rw [if_neg hs]
      rw [ih]
      dsimp only
      have hmem : hd ∉ akeys pr.1 := by
        intro hbad
        exact hs ((alookup_isSome_iff _ _).mpr hbad)
      rcases h : alookup pr.1 aid with _ | b
      · rfl
      · simp only [Option.map_some']
        rw [show resolveChildren (akeys pr.1) b.children (hd :: rest)
            = resolveChildren (akeys pr.1) b.children rest from by
          rw [resolveChildren, List.foldl_cons, if_neg hmem]
          rfl]

theorem linkInner_warns_none (aid : String) :
    ∀ (cids : List String) (pr : List (String × Agent) × List String),
      (∀ cid ∈ cids, cid ∈ akeys pr.1) →
      ((cids.foldl (fun acc₂ cid =>
        if (alookup acc₂.1 cid).isSome then
          (amodify acc₂.1 aid (fun a => { a with children := dictInsertKey a.children cid }),
           acc₂.2)
        else (acc₂.1, acc₂.2 ++ [childWarning aid cid])) pr)).2 = pr.2 := by
  intro cids
  induction cids with
  | nil => intro pr _; rfl
  | cons hd rest ih =>
    intro pr hall
    rw [List.foldl_cons]
    have hs : (alookup pr.1 hd).isSome :=
      (alookup_isSome_iff _ _).mpr (hall hd (List.mem_cons_self _ _))
    rw [if_pos hs]
    rw [ih]
    intro cid hc
    dsimp only
    rw [akeys_amodify]
    exact hall cid (List.mem_cons_of_mem _ hc)

theorem linkInner_warns_mono (aid : String) (w : String) :
    ∀ (cids : List String) (pr : List (String × Agent) × List String), w ∈ pr.2 →
      w ∈ ((cids.foldl (fun acc₂ cid =>
        if (alookup acc₂.1 cid).isSome then
          (amodify acc₂.1 aid (fun a => { a with children := dictInsertKey a.children cid }),
           acc₂.2)
        else (acc₂.1, acc₂.2 ++ [childWarning aid cid])) pr)).2 := by
  intro cids
  induction cids with
  | nil => intro pr h; exact h
  | cons hd rest ih =>
    intro pr hw
    rw [List.foldl_cons]
    by_cases hs : (alookup pr.1 hd).isSome
    · rw [if_pos hs]
      exact ih _ hw
    · rw [if_neg hs]
      exact ih _ (List.mem_append_left _ hw)

theorem linkInner_warns_mem (aid : String) :
    ∀ (cids : List String) (pr : List (String × Agent) × List String) (cid : String),
      cid ∈ cids → cid ∉ akeys pr.1 →
      childWarning aid cid ∈ ((cids.foldl (fun acc₂ cid =>
        if (alookup acc₂.1 cid).isSome then
          (amodify acc₂.1 aid (fun a => { a with children := dictInsertKey a.children cid }),
           acc₂.2)
        else (acc₂.1, acc₂.2 ++ [childWarning aid cid])) pr)).2 := by
  intro cids
  induction cids with
  | nil => intro pr cid hc; simp at hc
  | cons hd rest ih =>
    intro pr cid hc hmiss
    rw [List.foldl_cons]
    by_cases hhd : hd = cid
    · subst hhd
      have hs : ¬ (alookup pr.1 hd).isSome := by
        intro hbad
        exact hmiss ((alookup_isSome_iff _ _).mp hbad)
      rw [if_neg hs]
      exact linkInner_warns_mono aid _ rest _ (List.mem_append_right _ (List.mem_singleton.mpr rfl))
    · rcases List.mem_cons.mp hc with he | hc'
      · exact absurd he.symm hhd
      · by_cases hs : (alookup pr.1 hd).isSome
        · rw [if_pos hs]
          refine ih _ cid hc' ?_
          dsimp only
          rw [akeys_amodify]
          exact hmiss
        · rw [if_neg hs]
          exact ih _ cid hc' hmiss

theorem linkOne_keys (acc : List (String × Agent) × List String) (ast : AgentState) :
    akeys (linkOne acc ast).1 = akeys acc.1 := by
  rw [linkOne]
  rw [linkInner_keys]
  exact akeys_amodify _ _ _

theorem linkOne_lookup_other (acc : List (String × Agent) × List String) (ast : AgentState)
    (k : String) (hk : ast.id ≠ k) :
    alookup (linkOne acc ast).1 k = alookup acc.1 k := by
  rw [linkOne]
  rw [linkInner_lookup_other _ _ hk]
  exact alookup_amodify_ne _ _ _ _ hk

theorem linkOne_lookup_self (acc : List (String × Agent) × List String) (ast : AgentState) :
    alookup (linkOne acc ast).1 ast.id
      = (alookup acc.1 ast.id).map
          (fun a => { a with
              parent_id := ast.parent_id,
              children := resolveChildren (akeys acc.1) a.children ast.child_ids }) := by
  rw [linkOne]
  rw [linkInner_lookup_self]
  rw [akeys_amodify, alookup_amodify_self]
  rcases h : alookup acc.1 ast.id with _ | b
  · rfl
  · simp only [Option.map_some', Option.map_map]

theorem linkOne_warns_none (acc : List (String × Agent) × List String) (ast : AgentState)
    (hall : ∀ cid ∈ ast.child_ids, cid ∈ akeys acc.1) :
    (linkOne acc ast).2 = acc.2 := by
  rw [linkOne]
  rw [linkInner_warns_none]
  intro cid hc
  rw [akeys_amodify]
  exact hall cid hc

theorem linkOne_warns_mono (acc : List (String × Agent) × List String) (ast : AgentState)
    (w : String) (hw : w ∈ acc.2) : w ∈ (linkOne acc ast).2 := by
  rw [linkOne]
  exact linkInner_warns_mono _ _ _ _ hw

theorem linkOne_warns_mem (acc : List (String × Agent) × List String) (ast : AgentState)
    (cid : String) (hc : cid ∈ ast.child_ids) (hmiss : cid ∉ akeys acc.1) :
    childWarning ast.id cid ∈ (linkOne acc ast).2 := by
  rw [linkOne]
  refine linkInner_warns_mem _ _ _ cid hc ?_
  rw [akeys_amodify]
  exact hmiss

theorem linkChildren_fold_keys :
    ∀ (sts : List AgentState) (acc : List (String × Agent) × List String),
      akeys (sts.foldl linkOne acc).1 = akeys acc.1 := by
  intro sts
  induction sts with
  | nil => intro acc; rfl
  | cons hd rest ih =>
    intro acc
    rw [List.foldl_cons, ih, linkOne_keys]

theorem linkChildren_fold_lookup_other :
    ∀ (sts : List AgentState) (acc : List (String × Agent) × List String) (k : String),
      (∀ ast ∈ sts, ast.id ≠ k) →
      alookup (sts.foldl linkOne acc).1 k = alookup acc.1 k := by
  intro sts
  induction sts with
  | nil => intro acc k _; rfl
  | cons hd rest ih =>
    intro acc k hk
    rw [List.foldl_cons]
    rw [ih _ k (fun ast hast => hk ast (List.mem_cons_of_mem _ hast))]
    exact linkOne_lookup_other _ _ _ (hk hd (List.mem_cons_self _ _))

theorem linkChildren_fold_lookup :
    ∀ (sts : List AgentState) (acc : List (String × Agent) × List String) (ast : AgentState),
      ast ∈ sts → (sts.map AgentState.id).Nodup →
      alookup (sts.foldl linkOne acc).1 ast.id
        = (alookup acc.1 ast.id).map
            (fun a => { a with
                parent_id := ast.parent_id,
                children := resolveChildren (akeys acc.1) a.children ast.child_ids }) := by
  intro sts
  induction sts with
  | nil => intro acc ast hast; simp at hast
  | cons hd rest ih =>
    intro acc ast hast hnd
    rw [List.map_cons] at hnd
    obtain ⟨hhd_notin, hnd'⟩ := List.nodup_cons.mp hnd
    rw [List.foldl_cons]
    rcases List.mem_cons.mp hast with he | hast'
    · subst he
      have hfresh : ∀ b ∈ rest, b.id ≠ ast.id := by
        intro b hb hbad
        exact hhd_notin (hbad ▸ List.mem_map_of_mem AgentState.id hb)
      rw [linkChildren_fold_lookup_other rest _ ast.id hfresh]
      exact linkOne_lookup_self _ _
    · have hne : hd.id ≠ ast.id := by
        intro hbad
        exact hhd_notin (hbad ▸ List.mem_map_of_mem AgentState.id hast')
      rw [ih _ ast hast' hnd']
      rw [linkOne_lookup_other _ _ _ hne, linkOne_keys]

theorem linkChildren_fold_warns_none :
    ∀ (sts : List AgentState) (acc : List (String × Agent) × List String),
      (∀ ast ∈ sts, ∀ cid ∈ ast.child_ids, cid ∈ akeys acc.1) →
      (sts.foldl linkOne acc).2 = acc.2 := by
  intro sts
  induction sts with
  | nil => intro acc _; rfl
  | cons hd rest ih =>
    intro acc hall
    rw [List.foldl_cons]
    rw [ih _ ?rest]
    · exact linkOne_warns_none _ _ (hall hd (List.mem_cons_self _ _))
    · intro ast hast cid hc
      rw [linkOne_keys]
      exact hall ast (List.mem_cons_of_mem _ hast) cid hc

theorem linkChildren_fold_warns_mono :
    ∀ (sts : List AgentState) (acc : List (String × Agent) × List String) (w : String),
      w ∈ acc.2 → w ∈ (sts.foldl linkOne acc).2 := by
  intro sts
  induction sts with
  | nil => intro acc w hw; exact hw
  | cons hd rest ih =>
    intro acc w hw
    rw [List.foldl_cons]
    exact ih _ w (linkOne_warns_mono _ _ w hw)

theorem linkChildren_fold_warns_mem :
    ∀ (sts : List AgentState) (acc : List (String × Agent) × List String) (ast : AgentState)
      (cid : String), ast ∈ sts → cid ∈ ast.child_ids → cid ∉ akeys acc.1 →
      childWarning ast.id cid ∈ (sts.foldl linkOne acc).2 := by
  intro sts
  induction sts with
  | nil => intro acc ast cid hast; simp at hast
  | cons hd rest ih =>
    intro acc ast cid hast hc hmiss
    rw [List.foldl_cons]
    rcases List.mem_cons.mp hast with he | hast'
    · subst he
      exact linkChildren_fold_warns_mono rest _ _ (linkOne_warns_mem _ _ cid hc hmiss)
    · refine ih _ ast cid hast' hc ?_
      rw [linkOne_keys]
      exact hmiss

/-! ## Pass 1 and restore assembly -/

theorem foldl_aset_fresh :
    ∀ (sts : List AgentState) (m : List (String × Agent)),
      (∀ ast ∈ sts, ast.id ∉ akeys m) → (sts.map AgentState.id).Nodup →
      sts.foldl (fun m ast => aset m ast.id (Agent.load_state ast)) m
        = m ++ sts.map (fun ast => (ast.id, Agent.load_state ast)) := by
  intro sts
  induction sts with
  | nil => intro m _ _; simp
  | cons hd rest ih =>
    intro m hfresh hnd
    rw [List.map_cons] at hnd
    obtain ⟨hhd_notin, hnd'⟩ := List.nodup_cons.mp hnd
    rw [List.foldl_cons, aset_of_not_mem _ _ _ (hfresh hd (List.mem_cons_self _ _))]
    rw [ih (m ++ [(hd.id, Agent.load_state hd)]) ?_ hnd']
    · simp
    · intro ast hast
      have h1 : ast.id ∉ akeys m := hfresh ast (List.mem_cons_of_mem _ hast)
      have h2 : ast.id ≠ hd.id := by
        intro hbad
        exact hhd_notin (hbad ▸ List.mem_map_of_mem AgentState.id hast)
      have hkeq : akeys (m ++ [(hd.id, Agent.load_state hd)]) = akeys m ++ [hd.id] := by
        simp [akeys]
      rw [hkeq]
      intro hbad
      rcases List.mem_append.mp hbad with hbad' | hbad'
      · exact h1 hbad'
      · rw [List.mem_singleton] at hbad'
        exact h2 hbad'

theorem mem_resolveChildren (keys : List String) :
    ∀ (cids : List String) (ch : List String) (x : String),
      x ∈ resolveChildren keys ch cids ↔ x ∈ ch ∨ (x ∈ cids ∧ x ∈ keys) := by
  intro cids
  induction cids with
  | nil => intro ch x; simp [resolveChildren]
  | cons hd rest ih =>
    intro ch x
    rw [resolveChildren, List.foldl_cons]
    by_cases hk : hd ∈ keys
    · rw [if_pos hk]
      rw [show (List.foldl (fun ch cid => if cid ∈ keys then dictInsertKey ch cid else ch)
          (dictInsertKey ch hd) rest) = resolveChildren keys (dictInsertKey ch hd) rest from rfl]
      rw [ih]
      rw [mem_dictInsertKey]
      constructor
      · rintro ((hx | rfl) | ⟨hx1, hx2⟩)
        · exact Or.inl hx
        · exact Or.inr ⟨List.mem_cons_self _ _, hk⟩
        · exact Or.inr ⟨List.mem_cons_of_mem _ hx1, hx2⟩
      · rintro (hx | ⟨hx1, hx2⟩)
        · exact Or.inl (Or.inl hx)
        · rcases List.mem_cons.mp hx1 with rfl | hx1'
          · exact Or.inl (Or.inr rfl)
          · exact Or.inr ⟨hx1', hx2⟩
    · rw [if_neg hk]
      rw [show (List.foldl (fun ch cid => if cid ∈ keys then dictInsertKey ch cid else ch)
          ch rest) = resolveChildren keys ch rest from rfl]
      rw [ih]
      constructor
      · rintro (hx | ⟨hx1, hx2⟩)
        · exact Or.inl hx
        · exact Or.inr ⟨List.mem_cons_of_mem _ hx1, hx2⟩
      · rintro (hx | ⟨hx1, hx2⟩)
        · exact Or.inl hx
        · rcases List.mem_cons.mp hx1 with rfl | hx1'
          · exact absurd hx2 hk
          · exact Or.inr ⟨hx1', hx2⟩

theorem resolveChildren_all_present (keys : List String) :
    ∀ (cids : List String) (ch : List String), cids.Nodup → (∀ c ∈ cids, c ∈ keys) →
      (∀ c ∈ cids, c ∉ ch) →
      resolveChildren keys ch cids = ch ++ cids := by
  intro cids
  induction cids with
  | nil => intro ch _ _ _; simp [resolveChildren]
  | cons hd rest ih =>
    intro ch hnd hall hdisj
    obtain ⟨hhd_notin, hnd'⟩ := List.nodup_cons.mp hnd
    rw [resolveChildren, List.foldl_cons, if_pos (hall hd (List.mem_cons_self _ _))]
    rw [show (List.foldl (fun ch cid => if cid ∈ keys then dictInsertKey ch cid else ch)
        (dictInsertKey ch hd) rest) = resolveChildren keys (dictInsertKey ch hd) rest from rfl]
    rw [dictInsertKey, if_neg (hdisj hd (List.mem_cons_self _ _))]
    rw [ih _ hnd' (fun c hc => hall c (List.mem_cons_of_mem _ hc)) ?_]
    · simp
    · intro c hc
      rw [List.mem_append]
      rintro (hbad | hbad)
      · exact hdisj c (List.mem_cons_of_mem _ hc) hbad
      · rw [List.mem_singleton] at hbad
        exact hhd_notin (hbad ▸ hc)

/-- Restore (`Agency.__init__` from state) succeeds when the main id resolves,
and its agent map and warning list are exactly pass 2 applied to the pass-1
load of every record. -/
theorem initFromState_eq (st : AgencyState)
    (hnd : (st.agents.map AgentState.id).Nodup)
    (hmain : st.agency_id ∈ st.agents.map AgentState.id) :
    ∃ ag' warns, Agency.initFromState st = some (ag', warns)
      ∧ ag'.agents
          = (linkChildren (st.agents.map (fun ast => (ast.id, Agent.load_state ast))) st.agents).1
      ∧ warns
          = (linkChildren (st.agents.map (fun ast => (ast.id, Agent.load_state ast))) st.agents).2
      ∧ akeys ag'.agents = st.agents.map AgentState.id := by
  have hpass1 : st.agents.foldl (fun m ast => aset m ast.id (Agent.load_state ast)) []
      = st.agents.map (fun ast => (ast.id, Agent.load_state ast)) := by
    rw [foldl_aset_fresh st.agents [] (fun ast _ => by simp [akeys]) hnd]
    simp
  have hkeys1 : akeys (st.agents.map (fun ast => (ast.id, Agent.load_state ast)))
      = st.agents.map AgentState.id := by
    simp [akeys, List.map_map, Function.comp]
  have hsome : (alookup (st.agents.map (fun ast => (ast.id, Agent.load_state ast)))
      st.agency_id).isSome := by
    rw [alookup_isSome_iff, hkeys1]
    exact hmain
  obtain ⟨mainAg, hm⟩ := Option.isSome_iff_exists.mp hsome
  rw [Agency.initFromState]
  dsimp only
  rw [hpass1, hm]
  dsimp only
  refine ⟨_, _, rfl, rfl, rfl, ?_⟩
  rw [linkChildren]
  rw [linkChildren_fold_keys, hkeys1]

/-! ## C5 — snapshot round trip -/

/-- **C5** (confirmed).  For every agency whose map keys are duplicate-free and
match the stored agent ids, whose main agent is present, and whose `children`
lists are duplicate-free references to present agents, restoring the saved
state succeeds with no warnings and reproduces the actor ids (in order), every
`parent_id`, every `children` list (in order), every capability dict and every
history verbatim. -/
theorem snapshot_roundtrip (ag : Agency)
    (hk : (akeys ag.agents).Nodup)
    (hid : ∀ p ∈ ag.agents, p.2.id = p.1)
    (hmain : ag.main_agent_id ∈ akeys ag.agents)
    (hch : ∀ p ∈ ag.agents, p.2.children.Nodup ∧ ∀ c ∈ p.2.children, c ∈ akeys ag.agents) :
    ∃ ag', Agency.initFromState ag.save_state = some (ag', [])
      ∧ akeys ag'.agents = akeys ag.agents
      ∧ ∀ k a, alookup ag.agents k = some a →
          ∃ a', alookup ag'.agents k = some a'
            ∧ a'.parent_id = a.parent_id
            ∧ a'.children = a.children
            ∧ a'.accessible_tools = a.accessible_tools
            ∧ a'.message_history = a.message_history := by
  have hids : ag.save_state.agents.map AgentState.id = akeys ag.agents := by
    show (ag.agents.map (fun p => p.2.save_state)).map AgentState.id = akeys ag.agents
    rw [List.map_map]
    exact List.map_congr_left (fun p hp => hid p hp)
  have hnd : (ag.save_state.agents.map AgentState.id).Nodup := by
    rw [hids]
    exact hk
  have hmain' : ag.save_state.agency_id ∈ ag.save_state.agents.map AgentState.id := by
    rw [hids]
    exact hmain
  obtain ⟨ag', warns, hrun, hagents, hwarns, hkeys⟩ := initFromState_eq ag.save_state hnd hmain'
  have hkeysm : akeys (ag.save_state.agents.map (fun ast => (ast.id, Agent.load_state ast)))
      = akeys ag.agents := by
    rw [show akeys (ag.save_state.agents.map (fun ast => (ast.id, Agent.load_state ast)))
        = ag.save_state.agents.map AgentState.id by simp [akeys, List.map_map, Function.comp]]
    exact hids
  have hwnone : warns = [] := by
    rw [hwarns, linkChildren]
    rw [linkChildren_fold_warns_none]
    intro ast hast cid hc
    dsimp only
    rw [hkeysm]
    obtain ⟨p, hp, he⟩ := List.mem_map.mp hast
    subst he
    exact (hch p hp).2 cid hc
  refine ⟨ag', ?_, ?_, ?_⟩
  · rw [← hwnone]
    exact hrun
  · rw [hkeys, hids]
  · intro k a ha
    have hmem := mem_of_alookup_eq_some _ _ _ ha
    have hidk : a.id = k := hid (k, a) hmem
    subst hidk
    have hast : a.save_state ∈ ag.save_state.agents :=
      List.mem_map_of_mem (fun p => p.2.save_state) hmem
    have hm : alookup (ag.save_state.agents.map (fun ast => (ast.id, Agent.load_state ast)))
        a.id = some (Agent.load_state a.save_state) := by
      apply alookup_eq_some_of_mem_nodup
      · rw [hkeysm]
        exact hk
      · exact List.mem_map_of_mem _ hast
    have hlc := linkChildren_fold_lookup ag.save_state.agents
      (ag.save_state.agents.map (fun ast => (ast.id, Agent.load_state ast)), [])
      a.save_state hast hnd
    have hsid : (a.save_state).id = a.id := rfl
    rw [hsid] at hlc
    apply Exists.intro
    apply And.intro
    · rw [hagents, linkChildren, hlc]
      dsimp only
      rw [hm]
      rfl
    refine ⟨rfl, ?_, rfl, rfl⟩
    show resolveChildren
        (akeys (ag.save_state.agents.map (fun ast => (ast.id, Agent.load_state ast))))
        [] a.children = a.children
    rw [hkeysm]
    rw [resolveChildren_all_present (akeys ag.agents) a.children []
      (hch (a.id, a) hmem).1 (fun c hc => (hch (a.id, a) hmem).2 c hc)
      (fun c _ hc => List.not_mem_nil c hc)]
    simp

/-- Witness: the three-agent fixture round-trips exactly. -/
theorem snapshot_roundtrip_witness :
    ∃ ag', Agency.initFromState hostAgency.save_state = some (ag', [])
      ∧ akeys ag'.agents = akeys hostAgency.agents
      ∧ ∀ k a, alookup hostAgency.agents k = some a →
          ∃ a', alookup ag'.agents k = some a'
            ∧ a'.parent_id = a.parent_id
            ∧ a'.children = a.children
            ∧ a'.accessible_tools = a.accessible_tools
            ∧ a'.message_history = a.message_history :=
  snapshot_roundtrip hostAgency (by decide) (by decide) (by decide) (by decide)

/-! ## C9 (amended) — degraded restore -/

/-- **C9** (amended).  Whenever the saved ids are duplicate-free and the main
id resolves, restore completes.  Each loaded agent's `parent_id` is copied
verbatim from the snapshot — a dangling parent reference is kept, not dropped,
and draws no warning (see `restore_keeps_dangling_parent`).  Each `child_ids`
entry that resolves is linked; each one that does not is dropped from the
rebuilt `children` and contributes a "Child agent ID … not found" warning. -/
theorem restore_degraded (st : AgencyState)
    (hnd : (st.agents.map AgentState.id).Nodup)
    (hmain : st.agency_id ∈ st.agents.map AgentState.id) :
    ∃ ag' warns, Agency.initFromState st = some (ag', warns)
      ∧ ∀ ast ∈ st.agents, ∃ a, alookup ag'.agents ast.id = some a
          ∧ a.parent_id = ast.parent_id
          ∧ ∀ cid ∈ ast.child_ids,
              (cid ∈ st.agents.map AgentState.id → cid ∈ a.children)
              ∧ (cid ∉ st.agents.map AgentState.id →
                  cid ∉ a.children ∧ childWarning ast.id cid ∈ warns) := by
  obtain ⟨ag', warns, hrun, hagents, hwarns, hkeys⟩ := initFromState_eq st hnd hmain
  have hkeysm : akeys (st.agents.map (fun ast => (ast.id, Agent.load_state ast)))
      = st.agents.map AgentState.id := by
    simp [akeys, List.map_map, Function.comp]
  refine ⟨ag', warns, hrun, ?_⟩
  intro ast hast
  have hm : alookup (st.agents.map (fun ast => (ast.id, Agent.load_state ast))) ast.id
      = some (Agent.load_state ast) := by
    apply alookup_eq_some_of_mem_nodup
    · rw [hkeysm]
      exact hnd
    · exact List.mem_map_of_mem _ hast
  have hlc := linkChildren_fold_lookup st.agents
    (st.agents.map (fun ast => (ast.id, Agent.load_state ast)), []) ast hast hnd
  apply Exists.intro
  apply And.intro
  · rw [hagents, linkChildren, hlc]
    dsimp only
    rw [hm]
    rfl
  refine ⟨rfl, ?_⟩
  intro cid hc
  have hres := mem_resolveChildren
    (akeys (st.agents.map (fun ast => (ast.id, Agent.load_state ast))))
    ast.child_ids [] cid
  rw [hkeysm] at hres
  constructor
  · intro hin
    show cid ∈ resolveChildren
      (akeys (st.agents.map (fun ast => (ast.id, Agent.load_state ast)))) [] ast.child_ids
    rw [hkeysm]
    exact hres.mpr (Or.inr ⟨hc, hin⟩)
  · intro hout
    constructor
    · show cid ∉ resolveChildren
        (akeys (st.agents.map (fun ast => (ast.id, Agent.load_state ast)))) [] ast.child_ids
      rw [hkeysm]
      intro hbad
      rcases hres.mp hbad with hbad' | ⟨_, hbad'⟩
      · exact List.not_mem_nil cid hbad'
      · exact hout hbad'
    · rw [hwarns, linkChildren]
      refine linkChildren_fold_warns_mem st.agents _ ast cid hast hc ?_
      dsimp only
      rw [hkeysm]
      exact hout

/-- Witness: restoring `corruptChildState` drops the dangling `"ghost"` child
edge (with a warning) while linking the resolvable child `"1"`. -/
theorem restore_degraded_witness :
    ∃ ag' warns, Agency.initFromState corruptChildState = some (ag', warns)
      ∧ ∀ ast ∈ corruptChildState.agents, ∃ a, alookup ag'.agents ast.id = some a
          ∧ a.parent_id = ast.parent_id
          ∧ ∀ cid ∈ ast.child_ids,
              (cid ∈ corruptChildState.agents.map AgentState.id → cid ∈ a.children)
              ∧ (cid ∉ corruptChildState.agents.map AgentState.id →
                  cid ∉ a.children ∧ childWarning ast.id cid ∈ warns) :=
  restore_degraded corruptChildState (by decide) (by decide)
